import Mathlib

/-!
# Advertisement management API

A shallow embedding of the request handlers `getAds` and `addAds` (main.go), of the
enumeration helpers (utils.go) and of the record types (types.go), together with the
properties of the ad-matching, sorting and pagination logic.

Conventions of the embedding:

* `time.Time` is an integer instant counted in nanoseconds from the zero time, so `IsZero`
  is `= 0` and `Before` is `<`; the zone that a value carries only matters where the value is
  printed, which the source does for the two times of an `Advertisement`, so their zones are
  kept next to them;
* Go `int` is a 64-bit two's complement integer: arithmetic results are wrapped by `wrapInt`;
* a Go slice field that may be nil is an `Option (List _)`: `none` is the nil slice (stored
  as BSON null), `some []` is the empty, non-nil slice (stored as an empty array);
* `c.Query(k)` is a string that is `""` when the parameter is absent;
* the storage collaborator is the list of stored records and the error flags of its calls;
  the query document sent to it is a value of `Query`/`Filter`, evaluated by the documented
  MongoDB matching rules.
-/

namespace AdApi

/-! ## types.go -/

/-- Go `type Gender string`. -/
abbrev Gender := String
/-- Go `type Country string`. -/
abbrev Country := String
/-- Go `type Platform string`. -/
abbrev Platform := String

def Male : Gender := "M"
def Female : Gender := "F"

def Taiwan : Country := "TW"
def Japan : Country := "JP"
def United_States : Country := "US"
def Korea : Country := "KR"
def Thailand : Country := "TH"

def IOS : Platform := "ios"
def Android : Platform := "android"
def Web : Platform := "web"

/-- Go `time.Time`, as the integer instant counted in nanoseconds from the zero time. -/
abbrev Time := Int

/-- Go `time.Time.IsZero`. -/
def IsZero (t : Time) : Bool := decide (t = 0)

/-- Go `time.Time.Before`. -/
def Before (t u : Time) : Bool := decide (t < u)

/-- Condition represents data about a record condition. -/
structure Condition where
  AgeStart : Int
  AgeEnd : Int
  Gender : Option (List Gender)
  Country : Option (List Country)
  Platform : Option (List Platform)
deriving DecidableEq, Repr

/-- Advertisement represents data about a record advertisement. -/
structure Advertisement where
  Title : String
  StartAt : Time
  EndAt : Time
  Conditions : List Condition
  /-- The zone that the `time.Time` value `StartAt` carries, as its offset east of UTC in
  nanoseconds: 0 for a time written with `Z` and for every time read from the database, and
  8 * 3600 * 10^9 for a time decoded from a payload text that ends in `+08:00`. -/
  StartAtZone : Int
  /-- The zone that the `time.Time` value `EndAt` carries. -/
  EndAtZone : Int
deriving DecidableEq, Repr

/-- AdItem represents data about a record of an ad to be displayed. -/
structure AdItem where
  Title : String
  EndAt : Time
deriving DecidableEq, Repr, Inhabited

/-! ## utils.go -/

/-- Go `Gender.IsValid`. -/
def Gender.IsValid (g : Gender) : Bool :=
  g == Male || g == Female

/-- Go `Country.IsValid`. -/
def Country.IsValid (c : Country) : Bool :=
  c == Taiwan || c == Japan || c == United_States || c == Korea || c == Thailand

/-- Go `Platform.IsValid`. -/
def Platform.IsValid (p : Platform) : Bool :=
  p == IOS || p == Android || p == Web

/-- Go `strings.ToUpper` on a string of ASCII characters, where it maps the letters a-z to
A-Z and leaves the rest. The result is none for a string with a character outside ASCII:
the Unicode case mapping of such characters is not part of this model. -/
def ToUpper (s : String) : Option String :=
  if s.toList.all (fun c => decide (c.toNat < 128)) then
    some (String.mk (s.toList.map Char.toUpper))
  else none

/-- Go `strings.ToLower` on a string of ASCII characters, where it maps the letters A-Z to
a-z and leaves the rest. The result is none for a string with a character outside ASCII:
the Unicode case mapping of such characters is not part of this model. -/
def ToLower (s : String) : Option String :=
  if s.toList.all (fun c => decide (c.toNat < 128)) then
    some (String.mk (s.toList.map Char.toLower))
  else none

/-- Go `(*Gender).UnmarshalJSON`. `decoded` is the result of `json.Unmarshal(data, &s)`,
`upper` is `strings.ToUpper`, `g` is the target before the call. The result is the returned
error (if any) and the target after the call. -/
def Gender.UnmarshalJSON (upper : String → String) (decoded : Except String String)
    (g : Gender) : Option String × Gender :=
  match decoded with
  | .error err => (some err, g)
  | .ok s =>
    let gender : Gender := upper s
    if !Gender.IsValid gender then (some "invalid gender value", g)
    else (none, gender)

/-- Go `(*Country).UnmarshalJSON`. -/
def Country.UnmarshalJSON (upper : String → String) (decoded : Except String String)
    (c : Country) : Option String × Country :=
  match decoded with
  | .error err => (some err, c)
  | .ok s =>
    let country : Country := upper s
    if !Country.IsValid country then (some "invalid gender value", c)
    else (none, country)

/-- Go `(*Platform).UnmarshalJSON`; `lower` is `strings.ToLower`. -/
def Platform.UnmarshalJSON (lower : String → String) (decoded : Except String String)
    (p : Platform) : Option String × Platform :=
  match decoded with
  | .error err => (some err, p)
  | .ok s =>
    let platform : Platform := lower s
    if !Platform.IsValid platform then (some "invalid gender value", p)
    else (none, platform)

/-- The JSON object written by `Advertisement.MarshalJSON`. The members `startAt` and `endAt`
are texts of the form `2006-01-02T15:04:05.000Z`; each is kept as the instant that the text
denotes. -/
structure AdvertisementJSON where
  title : String
  startAt : Time
  endAt : Time
  conditions : List Condition
deriving DecidableEq, Repr

/-- Go `t.Format("2006-01-02T15:04:05.000Z")` for a time `t` that carries the zone offset
`zone`, as the instant that the printed text denotes: the layout prints the wall clock of
`t` in its own zone, cut to the millisecond, and then the letter `Z` as it stands, without a
conversion to UTC (times from the year 1 on, so the wall clock is not negative). -/
def Format (t : Time) (zone : Int) : Time :=
  (t + zone) / 1000000 * 1000000

/-- Go `Advertisement.MarshalJSON`: customizes the JSON marshalling behavior for the
Advertisement struct. -/
def Advertisement.MarshalJSON (ad : Advertisement) : AdvertisementJSON :=
  ⟨ad.Title, Format ad.StartAt ad.StartAtZone, Format ad.EndAt ad.EndAtZone, ad.Conditions⟩

/-! ## strconv.Atoi -/

/-- The two causes of a `strconv.NumError`. -/
inductive NumErr where
  | ErrSyntax
  | ErrRange
deriving DecidableEq, Repr

def maxUint64 : Nat := 2 ^ 64 - 1
def maxInt64 : Int := 2 ^ 63 - 1
def minInt64 : Int := -(2 ^ 63)

/-- The digit loop of `strconv.ParseUint(s, 10, 64)`: the first offending byte decides,
a non-digit is a syntax error and a digit that takes the value past `maxUint64` is a
range error. -/
def parseUintLoop : List Char → Nat → Except NumErr Nat
  | [], n => .ok n
  | c :: cs, n =>
    if c.isDigit then
      let n1 := n * 10 + (c.toNat - 48)
      if n1 > maxUint64 then .error .ErrRange else parseUintLoop cs n1
    else .error .ErrSyntax

/-- Go `strconv.ParseUint(s, 10, 64)` on the characters of `s`. -/
def ParseUint (s : List Char) : Except NumErr Nat :=
  match s with
  | [] => .error .ErrSyntax
  | _ => parseUintLoop s 0

/-- Go `strconv.ParseInt(s, 10, 0)` on a 64-bit platform: value and error. A syntax error
returns 0, a range error returns the nearest bound. -/
def ParseInt (s : List Char) : Int × Option NumErr :=
  match s with
  | [] => (0, some .ErrSyntax)
  | c :: cs =>
    let neg := c == '-'
    let digits := if c == '+' || c == '-' then cs else c :: cs
    match ParseUint digits with
    | .error .ErrSyntax => (0, some .ErrSyntax)
    | .error .ErrRange => if neg then (minInt64, some .ErrRange) else (maxInt64, some .ErrRange)
    | .ok un =>
      if !neg && un ≥ 2 ^ 63 then (maxInt64, some .ErrRange)
      else if neg && un > 2 ^ 63 then (minInt64, some .ErrRange)
      else (if neg then -(un : Int) else (un : Int), none)

/-- Go `strconv.Atoi`: `ParseInt(s, 10, 0)` converted to `int` (its fast path computes the
same result). -/
def Atoi (s : String) : Int × Option NumErr := ParseInt s.toList

/-- Wrap-around of a 64-bit two's complement result. -/
def wrapInt (x : Int) : Int := (x + 2 ^ 63) % 2 ^ 64 - 2 ^ 63

/-! ## The query document built by getAds and its MongoDB meaning -/

/-- The integer fields of a condition element. -/
inductive IntField where
  | ageStart
  | ageEnd
deriving DecidableEq, Repr

/-- The array fields of a condition element. -/
inductive SetField where
  | gender
  | country
  | platform
deriving DecidableEq, Repr

/-- The query documents (`bson.M`) that getAds puts inside `$elemMatch`. -/
inductive Query where
  /-- A document with the given entries: they must all hold; `doc []` is `bson.M{}`. -/
  | doc (entries : List Query)
  /-- The entry `f: {"$lte": v}`. -/
  | lte (f : IntField) (v : Int)
  /-- The entry `f: {"$gte": v}`. -/
  | gte (f : IntField) (v : Int)
  /-- The entry `f: {"$in": vs}`. -/
  | isIn (f : SetField) (vs : List String)
  /-- The entry `f: nil`. -/
  | isNull (f : SetField)
  /-- The entry `"$and": [...]`. -/
  | and (qs : List Query)
  /-- The entry `"$or": [...]`. -/
  | or (qs : List Query)
deriving Repr

/-- The filter document passed to `Find`. -/
structure Filter where
  /-- The entry `"startAt": {"$lte": t}`. -/
  startAtLte : Time
  /-- The entry `"endAt": {"$gte": t}`. -/
  endAtGte : Time
  /-- The entry `"conditions": {"$elemMatch": q}`. -/
  conditionsElemMatch : Query
deriving Repr

def IntField.get (f : IntField) (c : Condition) : Int :=
  match f with
  | .ageStart => c.AgeStart
  | .ageEnd => c.AgeEnd

def SetField.get (f : SetField) (c : Condition) : Option (List String) :=
  match f with
  | .gender => c.Gender
  | .country => c.Country
  | .platform => c.Platform

mutual
/-- MongoDB matching of a query document against one element of `conditions`:
`$lte`/`$gte` compare numbers; `$in` on an array field holds when some element of the array
is one of the listed values and never holds on null; equality with null holds exactly when
the field is null or missing (an empty array has no null element, so it does not match). -/
def Query.eval : Query → Condition → Bool
  | .doc entries, c => Query.evalAll entries c
  | .lte f v, c => decide (f.get c ≤ v)
  | .gte f v, c => decide (f.get c ≥ v)
  | .isIn f vs, c =>
    match f.get c with
    | none => false
    | some xs => xs.any (fun x => vs.contains x)
  | .isNull f, c => (f.get c).isNone
  | .and qs, c => Query.evalAll qs c
  | .or qs, c => Query.evalAny qs c
def Query.evalAll : List Query → Condition → Bool
  | [], _ => true
  | q :: qs, c => q.eval c && Query.evalAll qs c
def Query.evalAny : List Query → Condition → Bool
  | [], _ => false
  | q :: qs, c => q.eval c || Query.evalAny qs c
end

/-! ## sort.Slice

The Go standard library function `sort.Slice` (package sort, Go 1.19 and later): a
pattern-defeating quicksort over the index operations `Less` and `Swap`. getAds calls it with
the closure `Items[i].EndAt.Before(Items[j].EndAt)`. Loops are written as recursions on the
number of iterations that remain. -/

/-- The closure passed to `sort.Slice`: `data.Less(i, j)`. -/
def Less (l : List AdItem) (i j : Nat) : Bool :=
  Before (l.getD i default).EndAt (l.getD j default).EndAt

/-- The swapper of the slice: `data.Swap(i, j)`. -/
def Swap (l : List AdItem) (i j : Nat) : List AdItem :=
  (l.set i (l.getD j default)).set j (l.getD i default)

/-- Inner loop of `insertionSort_func`: `for j := i; j > a && data.Less(j, j-1); j--`. -/
def insertionInner (a : Nat) : Nat → List AdItem → List AdItem
  | 0, l => l
  | j + 1, l =>
    if a < j + 1 && Less l (j + 1) j then insertionInner a j (Swap l (j + 1) j) else l

/-- Outer loop of `insertionSort_func`: `for i := a + 1; i < b; i++`, `n` iterations left. -/
def insertionOuter (a : Nat) : Nat → Nat → List AdItem → List AdItem
  | 0, _, l => l
  | n + 1, i, l => insertionOuter a n (i + 1) (insertionInner a i l)

/-- Go `insertionSort_func`: sorts `data[a:b]` using insertion sort. -/
def insertionSort_func (l : List AdItem) (a b : Nat) : List AdItem :=
  insertionOuter a (b - (a + 1)) (a + 1) l

/-- Go `siftDown_func`: the heap property on `data[lo:hi]`, `first` is the offset of the
root of the heap. The first argument bounds the number of iterations. -/
def siftDown_func : Nat → List AdItem → Nat → Nat → Nat → List AdItem
  | 0, l, _, _, _ => l
  | fuel + 1, l, root, hi, first =>
    if 2 * root + 1 ≥ hi then l
    else
      let child :=
        if 2 * root + 1 + 1 < hi && Less l (first + (2 * root + 1)) (first + (2 * root + 1) + 1)
        then 2 * root + 1 + 1 else 2 * root + 1
      if !Less l (first + root) (first + child) then l
      else siftDown_func fuel (Swap l (first + root) (first + child)) child hi first

/-- First loop of `heapSort_func`: `for i := (hi - 1) / 2; i >= 0; i--`. -/
def heapBuild : Nat → List AdItem → Nat → Nat → List AdItem
  | 0, l, hi, first => siftDown_func hi l 0 hi first
  | i + 1, l, hi, first => heapBuild i (siftDown_func hi l (i + 1) hi first) hi first

/-- Second loop of `heapSort_func`: `for i := hi - 1; i >= 0; i--`. -/
def heapPop : Nat → List AdItem → Nat → List AdItem
  | 0, l, first => siftDown_func 0 (Swap l first (first + 0)) 0 0 first
  | i + 1, l, first =>
    heapPop i (siftDown_func (i + 1) (Swap l first (first + (i + 1))) 0 (i + 1) first) first

/-- Go `heapSort_func`. -/
def heapSort_func (l : List AdItem) (a b : Nat) : List AdItem :=
  let hi := b - a
  let l := heapBuild ((hi - 1) / 2) l hi a
  if hi = 0 then l else heapPop (hi - 1) l a

/-- Go `sortedHint`. -/
inductive sortedHint where
  | unknownHint
  | increasingHint
  | decreasingHint
deriving DecidableEq, Repr

/-- Go `order2_func`: returns x, y with `data[x] <= data[y]` and the updated swap count. -/
def order2_func (l : List AdItem) (a b swaps : Nat) : Nat × Nat × Nat :=
  if Less l b a then (b, a, swaps + 1) else (a, b, swaps)

/-- Go `median_func`: the index of the median of three, and the updated swap count. -/
def median_func (l : List AdItem) (a b c swaps : Nat) : Nat × Nat :=
  let r1 := order2_func l a b swaps
  let r2 := order2_func l r1.2.1 c r1.2.2
  let r3 := order2_func l r1.1 r2.1 r2.2.2
  (r3.2.1, r3.2.2)

/-- Go `medianAdjacent_func`. -/
def medianAdjacent_func (l : List AdItem) (a swaps : Nat) : Nat × Nat :=
  median_func l (a - 1) a (a + 1) swaps

/-- Go `choosePivot_func`: a pivot index in `[a, b)` and a hint. -/
def choosePivot_func (l : List AdItem) (a b : Nat) : Nat × sortedHint :=
  let len := b - a
  let i := a + len / 4 * 1
  let j := a + len / 4 * 2
  let k := a + len / 4 * 3
  if len ≥ 8 then
    let ri := if len ≥ 50 then medianAdjacent_func l i 0 else (i, 0)
    let rj := if len ≥ 50 then medianAdjacent_func l j ri.2 else (j, ri.2)
    let rk := if len ≥ 50 then medianAdjacent_func l k rj.2 else (k, rj.2)
    let m := median_func l ri.1 rj.1 rk.1 rk.2
    if m.2 = 0 then (m.1, .increasingHint)
    else if m.2 = 12 then (m.1, .decreasingHint)
    else (m.1, .unknownHint)
  else (j, .increasingHint)

/-- Go `reverseRange_func`: `for i < j` swap and move inwards. -/
def reverseLoop : Nat → List AdItem → Nat → Nat → List AdItem
  | 0, l, _, _ => l
  | fuel + 1, l, i, j => if i < j then reverseLoop fuel (Swap l i j) (i + 1) (j - 1) else l

/-- Go `reverseRange_func`. -/
def reverseRange_func (l : List AdItem) (a b : Nat) : List AdItem :=
  reverseLoop (b - a) l a (b - 1)

/-- Go `bits.Len`: the number of bits needed to represent `n` (fuel-bounded halving). -/
def bitsLenAux : Nat → Nat → Nat
  | 0, _ => 0
  | fuel + 1, n => if n = 0 then 0 else 1 + bitsLenAux fuel (n / 2)

/-- Go `bits.Len(uint(n))`. -/
def bitsLen (n : Nat) : Nat := bitsLenAux n n

/-- Go `(*xorshift).Next` on a 64-bit state. -/
def xorshiftNext (r : Nat) : Nat :=
  let r1 := r ^^^ ((r <<< 13) % 2 ^ 64)
  let r2 := r1 ^^^ (r1 >>> 7)
  r2 ^^^ ((r2 <<< 17) % 2 ^ 64)

/-- One iteration of the loop of `breakPatterns_func`: the element at `idx + i` changes
places with a pseudo-random element of the range; the new slice and random state. -/
def breakStep (l : List AdItem) (a length idx i random : Nat) : List AdItem × Nat :=
  let random1 := xorshiftNext random
  let other := random1 &&& (2 ^ bitsLen length - 1)
  let other1 := if other ≥ length then other - length else other
  (Swap l (idx + i) (a + other1), random1)

/-- Go `breakPatterns_func`: scatters three elements around the middle. -/
def breakPatterns_func (l : List AdItem) (a b : Nat) : List AdItem :=
  let length := b - a
  if length ≥ 8 then
    let idx := a + (length / 4) * 2 - 1
    let s0 := breakStep l a length idx 0 length
    let s1 := breakStep s0.1 a length idx 1 s0.2
    let s2 := breakStep s1.1 a length idx 2 s1.2
    s2.1
  else l

/-- Scan of `partialInsertionSort_func`: `for i < b && !data.Less(i, i-1) { i++ }`. -/
def scanSorted : Nat → List AdItem → Nat → Nat → Nat
  | 0, _, i, _ => i
  | fuel + 1, l, i, b => if i < b && !Less l i (i - 1) then scanSorted fuel l (i + 1) b else i

/-- Shift of the smaller element to the left:
`for j := i - 1; j >= 1; j-- { if !data.Less(j, j-1) { break }; data.Swap(j, j-1) }`. -/
def shiftLeft : Nat → List AdItem → List AdItem
  | 0, l => l
  | j + 1, l => if !Less l (j + 1) j then l else shiftLeft j (Swap l (j + 1) j)

/-- Shift of the greater element to the right:
`for j := i + 1; j < b; j++ { if !data.Less(j, j-1) { break }; data.Swap(j, j-1) }`. -/
def shiftRight : Nat → List AdItem → Nat → Nat → List AdItem
  | 0, l, _, _ => l
  | fuel + 1, l, j, b =>
    if j < b then
      if !Less l j (j - 1) then l else shiftRight fuel (Swap l j (j - 1)) (j + 1) b
    else l

/-- Loop of `partialInsertionSort_func`, `steps` iterations left (`maxSteps = 5`,
`shortestShifting = 50`). -/
def partialInsertionLoop : Nat → List AdItem → Nat → Nat → Nat → List AdItem × Bool
  | 0, l, _, _, _ => (l, false)
  | steps + 1, l, i, a, b =>
    let i1 := scanSorted (b - i) l i b
    if i1 = b then (l, true)
    else if b - a < 50 then (l, false)
    else
      let l1 := Swap l i1 (i1 - 1)
      let l2 := if i1 - a ≥ 2 then shiftLeft (i1 - 1) l1 else l1
      let l3 := if b - i1 ≥ 2 then shiftRight (b - (i1 + 1)) l2 (i1 + 1) b else l2
      partialInsertionLoop steps l3 i1 a b

/-- Go `partialInsertionSort_func`: partially sorts the slice, true when it is sorted at
the end. -/
def partialInsertionSort_func (l : List AdItem) (a b : Nat) : List AdItem × Bool :=
  partialInsertionLoop 5 l (a + 1) a b

/-- Scan of `partition_func`: `for i <= j && data.Less(i, a) { i++ }`. -/
def scanUp : Nat → List AdItem → Nat → Nat → Nat → Nat
  | 0, _, i, _, _ => i
  | fuel + 1, l, i, j, a => if i ≤ j && Less l i a then scanUp fuel l (i + 1) j a else i

/-- Scan of `partition_func`: `for i <= j && !data.Less(j, a) { j-- }`. -/
def scanDown (l : List AdItem) (i a : Nat) : Nat → Nat
  | 0 => 0
  | j + 1 => if i ≤ j + 1 && !Less l (j + 1) a then scanDown l i a j else j + 1

/-- Main loop of `partition_func`: the slice and the final `j`. -/
def partitionLoop : Nat → List AdItem → Nat → Nat → Nat → List AdItem × Nat
  | 0, l, _, j, _ => (l, j)
  | fuel + 1, l, i, j, a =>
    let i1 := scanUp (j + 1 - i) l i j a
    let j1 := scanDown l i1 a j
    if i1 > j1 then (l, j1)
    else partitionLoop fuel (Swap l i1 j1) (i1 + 1) (j1 - 1) a

/-- Go `partition_func`: the slice, the new pivot index and `alreadyPartitioned`. -/
def partition_func (l : List AdItem) (a b pivot : Nat) : List AdItem × Nat × Bool :=
  let l0 := Swap l a pivot
  let i1 := scanUp (b - 1 + 1 - (a + 1)) l0 (a + 1) (b - 1) a
  let j1 := scanDown l0 i1 a (b - 1)
  if i1 > j1 then (Swap l0 j1 a, j1, true)
  else
    let r := partitionLoop (j1 - 1 + 1 - (i1 + 1)) (Swap l0 i1 j1) (i1 + 1) (j1 - 1) a
    (Swap r.1 r.2 a, r.2, false)

/-- Scan of `partitionEqual_func`: `for i <= j && !data.Less(a, i) { i++ }`. -/
def scanUpEq : Nat → List AdItem → Nat → Nat → Nat → Nat
  | 0, _, i, _, _ => i
  | fuel + 1, l, i, j, a => if i ≤ j && !Less l a i then scanUpEq fuel l (i + 1) j a else i

/-- Scan of `partitionEqual_func`: `for i <= j && data.Less(a, j) { j-- }`. -/
def scanDownEq (l : List AdItem) (i a : Nat) : Nat → Nat
  | 0 => 0
  | j + 1 => if i ≤ j + 1 && Less l a (j + 1) then scanDownEq l i a j else j + 1

/-- Loop of `partitionEqual_func`: the slice and the final `i`. -/
def partitionEqualLoop : Nat → List AdItem → Nat → Nat → Nat → List AdItem × Nat
  | 0, l, i, _, _ => (l, i)
  | fuel + 1, l, i, j, a =>
    let i1 := scanUpEq (j + 1 - i) l i j a
    let j1 := scanDownEq l i1 a j
    if i1 > j1 then (l, i1)
    else partitionEqualLoop fuel (Swap l i1 j1) (i1 + 1) (j1 - 1) a

/-- Go `partitionEqual_func`: partitions into elements equal to the pivot and elements
greater than the pivot. -/
def partitionEqual_func (l : List AdItem) (a b pivot : Nat) : List AdItem × Nat :=
  partitionEqualLoop (b - a) (Swap l a pivot) (a + 1) (b - 1) a

/-- Go `pdqsort_func`: one recursion step per loop iteration and per recursive call; a
fresh call starts with `wasBalanced = wasPartitioned = true` (`maxInsertion = 12`). -/
def pdqsort_func : Nat → List AdItem → Nat → Nat → Nat → Bool → Bool → List AdItem
  | 0, l, _, _, _, _, _ => l
  | fuel + 1, l, a, b, limit, wasBalanced, wasPartitioned =>
    let length := b - a
    if length ≤ 12 then insertionSort_func l a b
    else if limit = 0 then heapSort_func l a b
    else
      let l1 := if !wasBalanced then breakPatterns_func l a b else l
      let limit1 := if !wasBalanced then limit - 1 else limit
      let ph := choosePivot_func l1 a b
      let l2 := if ph.2 = .decreasingHint then reverseRange_func l1 a b else l1
      let pivot := if ph.2 = .decreasingHint then (b - 1) - (ph.1 - a) else ph.1
      let hint := if ph.2 = .decreasingHint then sortedHint.increasingHint else ph.2
      let pi :=
        if wasBalanced && wasPartitioned && hint = .increasingHint
        then partialInsertionSort_func l2 a b else (l2, false)
      if pi.2 then pi.1
      else if 0 < a && !Less pi.1 (a - 1) pivot then
        let pe := partitionEqual_func pi.1 a b pivot
        pdqsort_func fuel pe.1 pe.2 b limit1 wasBalanced wasPartitioned
      else
        let pt := partition_func pi.1 a b pivot
        let mid := pt.2.1
        let leftLen := mid - a
        let rightLen := b - mid
        let balanceThreshold := length / 8
        if leftLen < rightLen then
          pdqsort_func fuel (pdqsort_func fuel pt.1 a mid limit1 true true)
            (mid + 1) b limit1 (decide (leftLen ≥ balanceThreshold)) pt.2.2
        else
          pdqsort_func fuel (pdqsort_func fuel pt.1 (mid + 1) b limit1 true true)
            a mid limit1 (decide (rightLen ≥ balanceThreshold)) pt.2.2

/-- Go `sort.Slice(x, less)`: `pdqsort_func(lessSwap, 0, length, bits.Len(uint(length)))`. -/
def sortSlice (l : List AdItem) : List AdItem :=
  pdqsort_func (l.length + 1) l 0 l.length (bitsLen l.length) true true

/-! ## main.go -/

/-- The query parameters read by getAds: the values of `c.Query(k)`, `""` when absent. -/
structure QueryParams where
  age : String
  gender : String
  country : String
  platform : String
  offset : String
  limit : String
deriving DecidableEq, Repr

/-- The storage collaborator as seen by one request: the errors of its calls and the
stored records, in the order in which the cursor yields them. -/
structure Storage where
  /-- The error of `getClient()`: connect or ping failed. -/
  clientErr : Bool
  /-- The error of `dbCol.Find`. -/
  findErr : Bool
  /-- The error of `cursor.Decode`. -/
  decodeErr : Bool
  /-- The error of `cursor.Err()`. -/
  cursorErr : Option String
  /-- The error of `dbCol.InsertOne`. -/
  insertErr : Bool
  /-- The stored records. -/
  catalog : List Advertisement
deriving Repr

/-- The body of a response. -/
inductive Body where
  /-- The body `gin.H{"error": msg}`. -/
  | error (msg : String)
  /-- A bare JSON string. -/
  | text (msg : String)
  /-- The body `DisplayAds{Items: items}`. -/
  | items (items : List AdItem)
  /-- An advertisement record, as written by its `MarshalJSON`. -/
  | ad (json : AdvertisementJSON)
deriving DecidableEq, Repr

/-- The outcome of a handler: a response, or a run-time panic. -/
inductive Outcome where
  | respond (status : Nat) (body : Body)
  | panicked
deriving DecidableEq, Repr

def StatusOK : Nat := 200
def StatusCreated : Nat := 201
def StatusBadRequest : Nat := 400
def StatusInternalServerError : Nat := 500

/-- The age query of getAds (main.go 61-73). -/
def ageFilter (ageCondition : String) : Except String Query :=
  if ageCondition ≠ "" then
    if (Atoi ageCondition).2 ≠ none then .error "invalid age parameter"
    else .ok (.doc [.lte .ageStart (Atoi ageCondition).1, .gte .ageEnd (Atoi ageCondition).1])
  else .ok (.doc [])

/-- The gender query of getAds (main.go 75-89). -/
def genderFilter (genderCondition : String) : Except String Query :=
  if genderCondition ≠ "" then
    if !Gender.IsValid genderCondition then .error "invalid gender parameter"
    else .ok (.doc [.or [.doc [.isIn .gender [genderCondition]], .doc [.isNull .gender]]])
  else .ok (.doc [])

/-- The country query of getAds (main.go 91-105). -/
def countryFilter (countryCondition : String) : Except String Query :=
  if countryCondition ≠ "" then
    if !Country.IsValid countryCondition then .error "invalid country parameter"
    else .ok (.doc [.or [.doc [.isIn .country [countryCondition]], .doc [.isNull .country]]])
  else .ok (.doc [])

/-- The platform query of getAds (main.go 107-121). -/
def platformFilter (platformCondition : String) : Except String Query :=
  if platformCondition ≠ "" then
    if !Platform.IsValid platformCondition then .error "invalid platform parameter"
    else .ok (.doc [.or [.doc [.isIn .platform [platformCondition]], .doc [.isNull .platform]]])
  else .ok (.doc [])

/-- The filter construction of getAds (main.go 47-129): the four sub-queries are built in
the order age, gender, country, platform, each returning at its first error, and are
combined under `$elemMatch` / `$and`. -/
def buildFilter (currentTime : Time) (q : QueryParams) : Except String Filter :=
  match ageFilter q.age with
  | .error msg => .error msg
  | .ok af =>
    match genderFilter q.gender with
    | .error msg => .error msg
    | .ok gf =>
      match countryFilter q.country with
      | .error msg => .error msg
      | .ok cf =>
        match platformFilter q.platform with
        | .error msg => .error msg
        | .ok pf =>
          .ok (Filter.mk currentTime currentTime (.doc [.and [af, gf, cf, pf]]))

/-- MongoDB matching of the filter document against a stored advertisement: `$elemMatch`
holds when `conditions` has at least one element that matches the query. -/
def Filter.eval (f : Filter) (ad : Advertisement) : Bool :=
  decide (ad.StartAt ≤ f.startAtLte) && decide (ad.EndAt ≥ f.endAtGte) &&
    ad.Conditions.any (fun c => f.conditionsElemMatch.eval c)

/-- The slice expression `Items[low:high]`: panics unless `0 <= low <= high <= len`
(the callers never pass `high` above `len`, so the capacity plays no part). -/
def sliceItems (items : List AdItem) (low high : Int) : Outcome :=
  if 0 ≤ low ∧ low ≤ high ∧ high ≤ (items.length : Int) then
    .respond StatusOK (.items ((items.drop low.toNat).take (high.toNat - low.toNat)))
  else .panicked

/-- The pagination of getAds (main.go 172-193) on the sorted items. -/
def paginate (items : List AdItem) (q : QueryParams) : Outcome :=
  let offset := (Atoi q.offset).1
  if offset ≥ (items.length : Int) then .respond StatusOK (.items [])
  else
    let limit := (Atoi q.limit).1
    let err_l := (Atoi q.limit).2
    let endIndex :=
      if err_l = none then
        if wrapInt (offset + limit) > (items.length : Int) then (items.length : Int)
        else wrapInt (offset + limit)
      else (items.length : Int)
    sliceItems items offset endIndex

/-- The result assembly of getAds (main.go 140-193) on the records found. -/
def assemble (found : List Advertisement) (q : QueryParams) : Outcome :=
  let items := found.map (fun ad => AdItem.mk ad.Title ad.EndAt)
  if items.length = 0 then .respond StatusOK (.items [])
  else paginate (sortSlice items) q

/-- Go `getAds`: responds with the list of all matching ads. -/
def getAds (st : Storage) (currentTime : Time) (q : QueryParams) : Outcome :=
  if st.clientErr then
    .respond StatusInternalServerError (.error "Failed to connect to database")
  else
    match buildFilter currentTime q with
    | .error msg => .respond StatusBadRequest (.error msg)
    | .ok filter =>
      if st.findErr then .respond StatusInternalServerError (.error "database error")
      else if st.decodeErr ∧ (st.catalog.filter filter.eval) ≠ [] then
        .respond StatusInternalServerError (.error "error decoding documents in data type")
      else
        match st.cursorErr with
        | some msg => .respond StatusInternalServerError (.error msg)
        | none => assemble (st.catalog.filter filter.eval) q

/-- Go `addAds`: adds an ad from the JSON received in the request body. `bound` is the
result of `c.ShouldBindJSON(&newAd)`, none when binding fails. The result is the response
and the records passed to `InsertOne`. -/
def addAds (st : Storage) (bound : Option Advertisement) : Outcome × List Advertisement :=
  if st.clientErr then
    (.respond StatusInternalServerError (.error "Failed to connect to database"), [])
  else
    match bound with
    | none => (.respond StatusBadRequest (.error "Failed binding data"), [])
    | some newAd =>
      if newAd.Title = "" ∨ IsZero newAd.StartAt ∨ IsZero newAd.EndAt then
        (.respond StatusBadRequest (.error "Missing required fields"), [])
      else if st.insertErr then
        (.respond StatusInternalServerError (.text "Failed adding data to database"), [newAd])
      else (.respond StatusCreated (.ad newAd.MarshalJSON), [newAd])

/-! ## setupMongo.go and the order of the storage calls -/

/-- One interaction of a handler with the storage collaborator. -/
inductive StorageCall where
  /-- The call `mongo.Connect` of `connectToMongoDB`. -/
  | Connect
  /-- The call `client.Ping` of `connectToMongoDB`. -/
  | Ping
  /-- The call `dbCol.Find` with the given filter. -/
  | Find (filter : Filter)
  /-- The call `dbCol.InsertOne` with the given record. -/
  | InsertOne (ad : Advertisement)
deriving Repr

/-- The package variables of setupMongo.go that `getClient` reads and writes: whether
`clientOnce` has run, and whether `clientErr` is non-nil. -/
structure ClientState where
  onceDone : Bool
  clientErr : Bool
deriving DecidableEq, Repr

/-- Go `connectToMongoDB`: connects, then pings; `pingErr` is the error of `client.Ping`.
The result is the returned error and the calls made. (`mongo.Connect` with the constant
options of the source returns no error; its error branch ends the process in `log.Fatalf`.) -/
def connectToMongoDB (pingErr : Bool) : Bool × List StorageCall :=
  (pingErr, [.Connect, .Ping])

/-- Go `getClient`: connects once, and connects again whenever `clientErr` is set. The result
is the new package state, the returned error and the calls made. -/
def getClient (s : ClientState) (pingErr : Bool) : ClientState × Bool × List StorageCall :=
  let s1 : ClientState := if s.onceDone then s else ⟨true, (connectToMongoDB pingErr).1⟩
  let calls1 := if s.onceDone then [] else (connectToMongoDB pingErr).2
  let s2 : ClientState := if s1.clientErr then ⟨true, (connectToMongoDB pingErr).1⟩ else s1
  let calls2 := if s1.clientErr then (connectToMongoDB pingErr).2 else []
  (s2, s2.clientErr, calls1 ++ calls2)

/-- Go `getAds` with the storage calls it makes, in order: `getClient` runs in the package
state `s` against a backend whose ping fails iff `pingErr`; the other storage results are
those of `st`. The outcome is that of `getAds` for the error returned by `getClient`. -/
def getAdsTraced (s : ClientState) (pingErr : Bool) (st : Storage) (currentTime : Time)
    (q : QueryParams) : Outcome × List StorageCall :=
  if (getClient s pingErr).2.1 then
    (.respond StatusInternalServerError (.error "Failed to connect to database"),
      (getClient s pingErr).2.2)
  else
    match buildFilter currentTime q with
    | .error msg => (.respond StatusBadRequest (.error msg), (getClient s pingErr).2.2)
    | .ok filter =>
      (if st.findErr then .respond StatusInternalServerError (.error "database error")
        else if st.decodeErr ∧ (st.catalog.filter filter.eval) ≠ [] then
          .respond StatusInternalServerError (.error "error decoding documents in data type")
        else
          match st.cursorErr with
          | some msg => .respond StatusInternalServerError (.error msg)
          | none => assemble (st.catalog.filter filter.eval) q,
        (getClient s pingErr).2.2 ++ [.Find filter])

/-- Go `addAds` with the storage calls it makes, in order. -/
def addAdsTraced (s : ClientState) (pingErr : Bool) (st : Storage)
    (bound : Option Advertisement) : Outcome × List StorageCall :=
  if (getClient s pingErr).2.1 then
    (.respond StatusInternalServerError (.error "Failed to connect to database"),
      (getClient s pingErr).2.2)
  else
    match bound with
    | none => (.respond StatusBadRequest (.error "Failed binding data"),
        (getClient s pingErr).2.2)
    | some newAd =>
      if newAd.Title = "" ∨ IsZero newAd.StartAt ∨ IsZero newAd.EndAt then
        (.respond StatusBadRequest (.error "Missing required fields"),
          (getClient s pingErr).2.2)
      else if st.insertErr then
        (.respond StatusInternalServerError (.text "Failed adding data to database"),
          (getClient s pingErr).2.2 ++ [.InsertOne newAd])
      else (.respond StatusCreated (.ad newAd.MarshalJSON),
        (getClient s pingErr).2.2 ++ [.InsertOne newAd])

/-- The storage with the error of `getClient` set to `err`. -/
def Storage.withClientErr (st : Storage) (err : Bool) : Storage :=
  ⟨err, st.findErr, st.decodeErr, st.cursorErr, st.insertErr, st.catalog⟩

/-! ## Vocabulary of the specification -/

/-- The requester's value is a member of the condition's set, or the set is unset
(null or absent). -/
def memberOrUnset (v : String) (set : Option (List String)) : Prop :=
  match set with
  | none => True
  | some xs => v ∈ xs

/-- One condition satisfies every dimension that the requester supplied. -/
def conditionMatches (q : QueryParams) (c : Condition) : Prop :=
  (q.age ≠ "" → c.AgeStart ≤ (Atoi q.age).1 ∧ (Atoi q.age).1 ≤ c.AgeEnd) ∧
  (q.gender ≠ "" → memberOrUnset q.gender c.Gender) ∧
  (q.country ≠ "" → memberOrUnset q.country c.Country) ∧
  (q.platform ≠ "" → memberOrUnset q.platform c.Platform)

/-- The status code of an outcome, none for a panic. -/
def Outcome.status : Outcome → Option Nat
  | .respond status _ => some status
  | .panicked => none

/-- The response `400 {"error": msg}`. -/
def badRequest (msg : String) : Outcome := .respond StatusBadRequest (.error msg)

/-- The candidate decoded from the payload of TestAdminAPISuccess with its two times written
with the offset `+08:00`: `"startAt": "2023-12-10T03:00:00.000+08:00"`, that is the instant
2023-12-09T19:00:00Z, and `"endAt": "2024-12-31T16:00:00.000+08:00"`, that is the instant
2024-12-31T08:00:00Z. -/
def zonedCandidate : Advertisement :=
  ⟨"AD test", 63837745200000000000, 63871228800000000000,
    [⟨30, 40, none, some ["TW", "JP"], some ["android", "ios"]⟩],
    28800000000000, 28800000000000⟩

/-- The candidate decoded from the same payload with the two instants written with `Z`:
`"startAt": "2023-12-09T19:00:00.000Z"`, `"endAt": "2024-12-31T08:00:00.000Z"`. -/
def utcCandidate : Advertisement :=
  ⟨"AD test", 63837745200000000000, 63871228800000000000,
    [⟨30, 40, none, some ["TW", "JP"], some ["android", "ios"]⟩], 0, 0⟩

/-! ## Vocabulary of the sort proof -/

/-- The sort key at index `i`: the `EndAt` of the element, as read by `Less`. -/
def K (l : List AdItem) (i : Nat) : Int := (l.getD i default).EndAt

/-- The list `l'` is the list `l` rearranged inside the index range `[a, b)`. -/
structure Frame (a b : Nat) (l l' : List AdItem) : Prop where
  perm : l'.Perm l
  out : ∀ m, m < a ∨ b ≤ m → K l' m = K l m
  ins : ∀ m, a ≤ m → m < b → ∃ j, a ≤ j ∧ j < b ∧ K l' m = K l j

/-- The keys are ascending on `[a, b)`, stated on neighbours. -/
def AdjSorted (l : List AdItem) (a b : Nat) : Prop :=
  ∀ i, a ≤ i → i + 1 < b → K l i ≤ K l (i + 1)

/-- The keys are ascending on `[a, b)`. -/
def SortedRange (l : List AdItem) (a b : Nat) : Prop :=
  ∀ i j, a ≤ i → i ≤ j → j < b → K l i ≤ K l j

/-- Every node `r >= lo` of the heap `data[first : first + hi]` dominates its children. -/
def Heap (l : List AdItem) (first lo hi : Nat) : Prop :=
  ∀ r c, lo ≤ r → c < hi → (c = 2 * r + 1 ∨ c = 2 * r + 2) → K l (first + c) ≤ K l (first + r)

/-- The heap property at every node except `root`. -/
def HeapExcept (l : List AdItem) (first lo hi root : Nat) : Prop :=
  ∀ r c, lo ≤ r → c < hi → (c = 2 * r + 1 ∨ c = 2 * r + 2) → r ≠ root →
    K l (first + c) ≤ K l (first + r)

/-- The children of `root` are dominated by the parent of `root`. -/
def Bridge (l : List AdItem) (first lo hi root : Nat) : Prop :=
  ∀ p c, lo ≤ p → (root = 2 * p + 1 ∨ root = 2 * p + 2) → c < hi →
    (c = 2 * root + 1 ∨ c = 2 * root + 2) → K l (first + c) ≤ K l (first + p)

/-- Invariant of the partition loop: the keys before `i` are below the pivot key at `a`, the
keys after `j` are not. -/
def PartInv (l : List AdItem) (a b i j : Nat) : Prop :=
  a < i ∧ i ≤ j + 1 ∧ j < b ∧ b ≤ l.length ∧
    (∀ m, a < m → m < i → K l m < K l a) ∧ (∀ m, j < m → m < b → K l a ≤ K l m)

/-- The range is split at `j` around the pivot key at `a`. -/
def PartDone (l : List AdItem) (a b j : Nat) : Prop :=
  a ≤ j ∧ j < b ∧ (∀ m, a < m → m ≤ j → K l m < K l a) ∧
    (∀ m, j < m → m < b → K l a ≤ K l m)

/-- Invariant of the loop of `partitionEqual_func`: the keys before `i` do not exceed the
pivot key at `a`, the keys after `j` do. -/
def PartInvEq (l : List AdItem) (a b i j : Nat) : Prop :=
  a < i ∧ i ≤ j + 1 ∧ j < b ∧ b ≤ l.length ∧
    (∀ m, a < m → m < i → K l m ≤ K l a) ∧ (∀ m, j < m → m < b → K l a < K l m)

/-- The key just before the range is a lower bound of the keys of the range. -/
def LowerBound (l : List AdItem) (a b : Nat) : Prop :=
  0 < a → ∀ m, a ≤ m → m < b → K l (a - 1) ≤ K l m

/-- The items with the end time `t`. -/
def withEndAt (t : Time) (l : List AdItem) : List AdItem :=
  l.filter (fun x => decide (x.EndAt = t))

/-- Thirteen items in catalog order: the first ends later than the twelve others, which all
end at the same time. -/
def thirteenItems : List AdItem :=
  [⟨"a0", 2⟩, ⟨"a1", 1⟩, ⟨"a2", 1⟩, ⟨"a3", 1⟩, ⟨"a4", 1⟩, ⟨"a5", 1⟩, ⟨"a6", 1⟩, ⟨"a7", 1⟩,
    ⟨"a8", 1⟩, ⟨"a9", 1⟩, ⟨"a10", 1⟩, ⟨"a11", 1⟩, ⟨"a12", 1⟩]

/-- Fourteen items in catalog order: the first ends later than the thirteen others, which
all end at the same time. After the first partition the remaining range is unbalanced, so
this input goes through `breakPatterns_func`. -/
def fourteenItems : List AdItem :=
  [⟨"a0", 2⟩, ⟨"a1", 1⟩, ⟨"a2", 1⟩, ⟨"a3", 1⟩, ⟨"a4", 1⟩, ⟨"a5", 1⟩, ⟨"a6", 1⟩, ⟨"a7", 1⟩,
    ⟨"a8", 1⟩, ⟨"a9", 1⟩, ⟨"a10", 1⟩, ⟨"a11", 1⟩, ⟨"a12", 1⟩, ⟨"a13", 1⟩]

/-! # Theorems -/

/-! ## Lemmas on the filter -/

theorem eval_doc_nil (c : Condition) : (Query.doc []).eval c = true := by
  simp [Query.eval, Query.evalAll]

theorem eval_age (v : Int) (c : Condition) :
    (Query.doc [.lte .ageStart v, .gte .ageEnd v]).eval c = true ↔
      c.AgeStart ≤ v ∧ v ≤ c.AgeEnd := by
  simp [Query.eval, Query.evalAll, IntField.get]

theorem eval_member (f : SetField) (v : String) (c : Condition) :
    (Query.doc [.or [.doc [.isIn f [v]], .doc [.isNull f]]]).eval c = true ↔
      memberOrUnset v (f.get c) := by
  cases h : f.get c with
  | none => simp [Query.eval, Query.evalAll, Query.evalAny, memberOrUnset, h]
  | some xs =>
    simp only [Query.eval, Query.evalAll, Query.evalAny, memberOrUnset, h]
    simp

theorem ageFilter_ok (age : String) (h : age = "" ∨ (Atoi age).2 = none) :
    ∃ af, ageFilter age = .ok af ∧
      ∀ c, af.eval c = true ↔ (age ≠ "" → c.AgeStart ≤ (Atoi age).1 ∧ (Atoi age).1 ≤ c.AgeEnd) := by
  by_cases he : age = ""
  · exact ⟨.doc [], by simp [ageFilter, he], fun c => by simp [eval_doc_nil, he]⟩
  · have h2 : (Atoi age).2 = none := h.resolve_left he
    exact ⟨.doc [.lte .ageStart (Atoi age).1, .gte .ageEnd (Atoi age).1],
      by simp [ageFilter, he, h2], fun c => by simp [eval_age, he]⟩

theorem genderFilter_ok (g : String) (h : g = "" ∨ Gender.IsValid g = true) :
    ∃ gf, genderFilter g = .ok gf ∧
      ∀ c, gf.eval c = true ↔ (g ≠ "" → memberOrUnset g c.Gender) := by
  by_cases he : g = ""
  · exact ⟨.doc [], by simp [genderFilter, he], fun c => by simp [eval_doc_nil, he]⟩
  · have h2 : Gender.IsValid g = true := h.resolve_left he
    exact ⟨.doc [.or [.doc [.isIn .gender [g]], .doc [.isNull .gender]]],
      by simp [genderFilter, he, h2], fun c => by simp [eval_member, he, SetField.get]⟩

theorem countryFilter_ok (g : String) (h : g = "" ∨ Country.IsValid g = true) :
    ∃ gf, countryFilter g = .ok gf ∧
      ∀ c, gf.eval c = true ↔ (g ≠ "" → memberOrUnset g c.Country) := by
  by_cases he : g = ""
  · exact ⟨.doc [], by simp [countryFilter, he], fun c => by simp [eval_doc_nil, he]⟩
  · have h2 : Country.IsValid g = true := h.resolve_left he
    exact ⟨.doc [.or [.doc [.isIn .country [g]], .doc [.isNull .country]]],
      by simp [countryFilter, he, h2], fun c => by simp [eval_member, he, SetField.get]⟩

theorem platformFilter_ok (g : String) (h : g = "" ∨ Platform.IsValid g = true) :
    ∃ gf, platformFilter g = .ok gf ∧
      ∀ c, gf.eval c = true ↔ (g ≠ "" → memberOrUnset g c.Platform) := by
  by_cases he : g = ""
  · exact ⟨.doc [], by simp [platformFilter, he], fun c => by simp [eval_doc_nil, he]⟩
  · have h2 : Platform.IsValid g = true := h.resolve_left he
    exact ⟨.doc [.or [.doc [.isIn .platform [g]], .doc [.isNull .platform]]],
      by simp [platformFilter, he, h2], fun c => by simp [eval_member, he, SetField.get]⟩

/-! ## C1: eligibility of an ad with conditions -/

/-- C1: for every time `now` and every requester whose supplied parameters are valid, getAds
builds a filter, and an ad is selected by it iff `startAt <= now <= endAt` and ONE condition
of its list satisfies all supplied dimensions at once (age within the inclusive range;
gender, country, platform a member of the condition's set or the set unset). An omitted
dimension puts no constraint, and the dimensions are never split over two conditions. -/
theorem getAds_filter_selects (now : Time) (q : QueryParams)
    (hage : q.age = "" ∨ (Atoi q.age).2 = none)
    (hgender : q.gender = "" ∨ Gender.IsValid q.gender = true)
    (hcountry : q.country = "" ∨ Country.IsValid q.country = true)
    (hplatform : q.platform = "" ∨ Platform.IsValid q.platform = true) :
    ∃ f, buildFilter now q = .ok f ∧
      ∀ ad : Advertisement, ad.Conditions ≠ [] →
        (f.eval ad = true ↔
          ad.StartAt ≤ now ∧ now ≤ ad.EndAt ∧ ∃ c ∈ ad.Conditions, conditionMatches q c) := by
  obtain ⟨af, haf, hafe⟩ := ageFilter_ok q.age hage
  obtain ⟨gf, hgf, hgfe⟩ := genderFilter_ok q.gender hgender
  obtain ⟨cf, hcf, hcfe⟩ := countryFilter_ok q.country hcountry
  obtain ⟨pf, hpf, hpfe⟩ := platformFilter_ok q.platform hplatform
  refine ⟨Filter.mk now now (.doc [.and [af, gf, cf, pf]]),
    by simp only [buildFilter, haf, hgf, hcf, hpf], ?_⟩
  intro ad _
  simp only [Filter.eval, Bool.and_eq_true, decide_eq_true_eq, List.any_eq_true,
    Query.eval, Query.evalAll, Bool.and_true, hafe, hgfe, hcfe, hpfe, conditionMatches,
    ge_iff_le, and_assoc]

/-- C1 (witness): the stored test ad "Test Ad 2" and the requester of TestPublicAPISuccess. -/
theorem getAds_filter_selects_witness :
    ∃ f, buildFilter 20 ⟨"24", "F", "KR", "ios", "", "3"⟩ = .ok f ∧
      (f.eval ⟨"Test Ad 2", 10, 9999, [⟨20, 30, none, some ["KR", "JP"], some ["ios"]⟩], 0, 0⟩ = true ↔
        (10 : Int) ≤ 20 ∧ (20 : Int) ≤ 9999 ∧
          ∃ c ∈ [(⟨20, 30, none, some ["KR", "JP"], some ["ios"]⟩ : Condition)],
            conditionMatches ⟨"24", "F", "KR", "ios", "", "3"⟩ c) :=
  (getAds_filter_selects 20 ⟨"24", "F", "KR", "ios", "", "3"⟩
    (Or.inr (by decide)) (Or.inr (by decide)) (Or.inr (by decide)) (Or.inr (by decide))).imp
    (fun _ h => ⟨h.1, h.2
      ⟨"Test Ad 2", 10, 9999, [⟨20, 30, none, some ["KR", "JP"], some ["ios"]⟩], 0, 0⟩ (by decide)⟩)

/-! ## C2: ads without conditions -/

/-- C2 (counterexample): an ad with an empty condition list that is inside its validity
window is not selected, although no parameter is supplied: the temporal gate holds and the
filter rejects the ad, so getAds returns no item. -/
theorem getAds_empty_conditions_not_selected :
    (∃ f, buildFilter 20 ⟨"", "", "", "", "", ""⟩ = .ok f ∧
      f.eval ⟨"Unconditional", 10, 30, [], 0, 0⟩ = false) ∧
    (10 : Int) ≤ 20 ∧ (20 : Int) ≤ 30 ∧
    getAds ⟨false, false, false, none, false, [⟨"Unconditional", 10, 30, [], 0, 0⟩]⟩ 20
      ⟨"", "", "", "", "", ""⟩ = .respond StatusOK (.items []) := by
  refine ⟨⟨_, rfl, by decide⟩, by decide, by decide, by decide⟩

/-- C2 (amended): an ad whose condition list is empty is selected by no filter that getAds
builds, whatever the requester and the time: `$elemMatch` needs an element to match. -/
theorem getAds_filter_rejects_empty_conditions (now : Time) (q : QueryParams) (f : Filter)
    (ad : Advertisement) (hf : buildFilter now q = .ok f) (hempty : ad.Conditions = []) :
    f.eval ad = false := by
  have _ := hf
  simp [Filter.eval, hempty]

/-- C2 (amended, witness). -/
theorem getAds_filter_rejects_empty_conditions_witness :
    (Filter.mk 20 20 (.doc [.and [.doc [], .doc [], .doc [], .doc []]])).eval
      ⟨"Unconditional", 10, 30, [], 0, 0⟩ = false :=
  getAds_filter_rejects_empty_conditions 20 ⟨"", "", "", "", "", ""⟩ _ _ rfl rfl

/-! ## C3: a set stored as an empty array -/

/-- C3 (the code at the failing input): for a condition whose gender set is stored as the
empty array, the gender predicate built for the valid value "M" does not hold, while it
holds for the same condition with the set null; so the ad is not returned to a requester
that supplies a gender. Country and platform behave the same way. -/
theorem getAds_empty_array_is_not_wildcard :
    (∃ g, genderFilter "M" = .ok g ∧
      g.eval ⟨0, 100, some [], none, none⟩ = false ∧
      g.eval ⟨0, 100, none, none, none⟩ = true) ∧
    (∃ g, countryFilter "TW" = .ok g ∧
      g.eval ⟨0, 100, none, some [], none⟩ = false ∧
      g.eval ⟨0, 100, none, none, none⟩ = true) ∧
    (∃ g, platformFilter "ios" = .ok g ∧
      g.eval ⟨0, 100, none, none, some []⟩ = false ∧
      g.eval ⟨0, 100, none, none, none⟩ = true) ∧
    getAds ⟨false, false, false, none, false, [⟨"Ad", 10, 30, [⟨0, 100, some [], none, none⟩], 0, 0⟩]⟩
      20 ⟨"", "M", "", "", "", ""⟩ = .respond StatusOK (.items []) ∧
    getAds ⟨false, false, false, none, false, [⟨"Ad", 10, 30, [⟨0, 100, none, none, none⟩], 0, 0⟩]⟩
      20 ⟨"", "M", "", "", "", ""⟩ = .respond StatusOK (.items [⟨"Ad", 30⟩]) := by
  refine ⟨⟨_, rfl, by decide, by decide⟩, ⟨_, rfl, by decide, by decide⟩,
    ⟨_, rfl, by decide, by decide⟩, by decide, by decide⟩

/-! ## C6: order of the parameter validation -/

theorem ageFilter_error (age : String) (msg : String) :
    ageFilter age = .error msg ↔
      (age ≠ "" ∧ (Atoi age).2 ≠ none) ∧ msg = "invalid age parameter" := by
  unfold ageFilter
  by_cases he : age = ""
  · simp [he]
  · by_cases h2 : (Atoi age).2 = none
    · simp [he, h2]
    · simp [he, h2, eq_comm]

theorem genderFilter_error (g : String) (msg : String) :
    genderFilter g = .error msg ↔
      (g ≠ "" ∧ Gender.IsValid g = false) ∧ msg = "invalid gender parameter" := by
  unfold genderFilter
  by_cases he : g = ""
  · simp [he]
  · cases h2 : Gender.IsValid g <;> simp [he, eq_comm]

theorem countryFilter_error (g : String) (msg : String) :
    countryFilter g = .error msg ↔
      (g ≠ "" ∧ Country.IsValid g = false) ∧ msg = "invalid country parameter" := by
  unfold countryFilter
  by_cases he : g = ""
  · simp [he]
  · cases h2 : Country.IsValid g <;> simp [he, eq_comm]

theorem platformFilter_error (g : String) (msg : String) :
    platformFilter g = .error msg ↔
      (g ≠ "" ∧ Platform.IsValid g = false) ∧ msg = "invalid platform parameter" := by
  unfold platformFilter
  by_cases he : g = ""
  · simp [he]
  · cases h2 : Platform.IsValid g <;> simp [he, eq_comm]

theorem Gender_IsValid_iff (g : String) : Gender.IsValid g = true ↔ g = "M" ∨ g = "F" := by
  simp [Gender.IsValid, Male, Female]

theorem Country_IsValid_iff (c : String) :
    Country.IsValid c = true ↔ c = "TW" ∨ c = "JP" ∨ c = "US" ∨ c = "KR" ∨ c = "TH" := by
  simp [Country.IsValid, Taiwan, Japan, United_States, Korea, Thailand, or_assoc]

theorem Platform_IsValid_iff (p : String) :
    Platform.IsValid p = true ↔ p = "ios" ∨ p = "android" ∨ p = "web" := by
  simp [Platform.IsValid, IOS, Android, Web, or_assoc]

theorem assemble_status (found : List Advertisement) (q : QueryParams) :
    (assemble found q).status ≠ some StatusBadRequest := by
  unfold assemble paginate sliceItems
  simp only []
  split_ifs <;> simp [Outcome.status, StatusOK, StatusBadRequest]

/-- Once the storage client is available and the filter is built, getAds does not answer 400. -/
theorem getAds_of_filter (st : Storage) (now : Time) (q : QueryParams) (f : Filter)
    (hc : st.clientErr = false) (hf : buildFilter now q = .ok f) (msg : String) :
    getAds st now q ≠ badRequest msg := by
  intro h
  have hs := congrArg Outcome.status h
  simp only [getAds, hc, hf, badRequest] at hs
  by_cases h1 : st.findErr = true
  · simp [h1, Outcome.status, StatusInternalServerError, StatusBadRequest] at hs
  · by_cases h2 : st.decodeErr = true ∧ List.filter f.eval st.catalog ≠ []
    · simp [h1, h2, Outcome.status, StatusInternalServerError, StatusBadRequest] at hs
    · cases hce : st.cursorErr with
      | some m =>
        rw [if_neg h1, if_neg h2, hce] at hs
        simp [Outcome.status, StatusInternalServerError, StatusBadRequest] at hs
      | none =>
        rw [if_neg h1, if_neg h2, hce] at hs
        exact assemble_status _ q hs

/-- When the storage client is available, getAds answers 400 exactly with the error of the
filter construction. -/
theorem getAds_badRequest_iff (st : Storage) (now : Time) (q : QueryParams)
    (hc : st.clientErr = false) (msg : String) :
    getAds st now q = badRequest msg ↔ buildFilter now q = .error msg := by
  cases hf : buildFilter now q with
  | ok f => simpa using getAds_of_filter st now q f hc hf msg
  | error m => simp [getAds, hc, hf, badRequest]

theorem buildFilter_error (now : Time) (q : QueryParams) (msg : String) :
    buildFilter now q = .error msg ↔
      ageFilter q.age = .error msg ∨
      ((∃ af, ageFilter q.age = .ok af) ∧ (genderFilter q.gender = .error msg ∨
      ((∃ gf, genderFilter q.gender = .ok gf) ∧ (countryFilter q.country = .error msg ∨
      ((∃ cf, countryFilter q.country = .ok cf) ∧ platformFilter q.platform = .error msg))))) := by
  unfold buildFilter
  cases ageFilter q.age <;> cases genderFilter q.gender <;> cases countryFilter q.country <;>
    cases platformFilter q.platform <;> simp

theorem ageFilter_isOk (age : String) :
    (∃ af, ageFilter age = .ok af) ↔ ¬(age ≠ "" ∧ (Atoi age).2 ≠ none) := by
  unfold ageFilter
  by_cases he : age = ""
  · simp [he]
  · by_cases h2 : (Atoi age).2 = none <;> simp [he, h2]

theorem genderFilter_isOk (g : String) :
    (∃ gf, genderFilter g = .ok gf) ↔ ¬(g ≠ "" ∧ Gender.IsValid g = false) := by
  unfold genderFilter
  by_cases he : g = ""
  · simp [he]
  · cases h2 : Gender.IsValid g <;> simp [he]

theorem countryFilter_isOk (g : String) :
    (∃ gf, countryFilter g = .ok gf) ↔ ¬(g ≠ "" ∧ Country.IsValid g = false) := by
  unfold countryFilter
  by_cases he : g = ""
  · simp [he]
  · cases h2 : Country.IsValid g <;> simp [he]

/-- The first invalid parameter, in the order age, gender, country, platform, decides the
error of the filter construction. -/
theorem buildFilter_error_iff (now : Time) (q : QueryParams) (msg : String) :
    buildFilter now q = .error msg ↔
      ((q.age ≠ "" ∧ (Atoi q.age).2 ≠ none) ∧ msg = "invalid age parameter") ∨
      (¬(q.age ≠ "" ∧ (Atoi q.age).2 ≠ none) ∧
        (((q.gender ≠ "" ∧ Gender.IsValid q.gender = false) ∧
            msg = "invalid gender parameter") ∨
        (¬(q.gender ≠ "" ∧ Gender.IsValid q.gender = false) ∧
          (((q.country ≠ "" ∧ Country.IsValid q.country = false) ∧
              msg = "invalid country parameter") ∨
          (¬(q.country ≠ "" ∧ Country.IsValid q.country = false) ∧
            ((q.platform ≠ "" ∧ Platform.IsValid q.platform = false) ∧
              msg = "invalid platform parameter")))))) := by
  rw [buildFilter_error, ageFilter_error, ageFilter_isOk, genderFilter_error,
    genderFilter_isOk, countryFilter_error, countryFilter_isOk, platformFilter_error]

/-! ## C6 -/

/-- C6 (amended): for every query for which `getClient()` returns no error, getAds validates
the supplied parameters in the fixed order age, gender, country, platform and fails on the
first invalid one alone: it answers 400
"invalid age parameter" iff age is supplied and is not a valid integer; otherwise 400
"invalid gender parameter" iff gender is supplied and not in {M, F}; otherwise 400 "invalid
country parameter" iff country is supplied and not in {TW, JP, US, KR, TH}; otherwise 400
"invalid platform parameter" iff platform is supplied and not in {ios, android, web}. In each
of these cases the whole outcome is that error response, so no item list is returned. -/
theorem getAds_validation_order (st : Storage) (now : Time) (q : QueryParams)
    (hc : st.clientErr = false) :
    (getAds st now q = badRequest "invalid age parameter" ↔
      q.age ≠ "" ∧ (Atoi q.age).2 ≠ none) ∧
    (¬(q.age ≠ "" ∧ (Atoi q.age).2 ≠ none) →
      (getAds st now q = badRequest "invalid gender parameter" ↔
        q.gender ≠ "" ∧ ¬(q.gender = "M" ∨ q.gender = "F")) ∧
      (¬(q.gender ≠ "" ∧ ¬(q.gender = "M" ∨ q.gender = "F")) →
        (getAds st now q = badRequest "invalid country parameter" ↔
          q.country ≠ "" ∧ ¬(q.country = "TW" ∨ q.country = "JP" ∨ q.country = "US" ∨
            q.country = "KR" ∨ q.country = "TH")) ∧
        (¬(q.country ≠ "" ∧ ¬(q.country = "TW" ∨ q.country = "JP" ∨ q.country = "US" ∨
            q.country = "KR" ∨ q.country = "TH")) →
          (getAds st now q = badRequest "invalid platform parameter" ↔
            q.platform ≠ "" ∧ ¬(q.platform = "ios" ∨ q.platform = "android" ∨
              q.platform = "web"))))) := by
  have hG : ∀ g : String, Gender.IsValid g = false ↔ ¬(g = "M" ∨ g = "F") := fun g => by
    rw [← Gender_IsValid_iff]; simp
  have hC : ∀ g : String, Country.IsValid g = false ↔
      ¬(g = "TW" ∨ g = "JP" ∨ g = "US" ∨ g = "KR" ∨ g = "TH") := fun g => by
    rw [← Country_IsValid_iff]; simp
  have hP : ∀ g : String, Platform.IsValid g = false ↔
      ¬(g = "ios" ∨ g = "android" ∨ g = "web") := fun g => by
    rw [← Platform_IsValid_iff]; simp
  simp only [getAds_badRequest_iff st now q hc, buildFilter_error_iff, ← hG, ← hC, ← hP]
  refine ⟨?_, fun h1 => ⟨?_, fun h2 => ⟨?_, fun h3 => ?_⟩⟩⟩
  · simp
  · simp [h1]
  · simp [h1, h2]
  · simp [h1, h2, h3]

/-- C6 (witness): the request of TestPublicAPIInvalidPlatformParameter. -/
theorem getAds_validation_order_witness :
    getAds ⟨false, false, false, none, false, []⟩ 20 ⟨"24", "F", "TW", "ABC", "", "3"⟩ =
      badRequest "invalid platform parameter" :=
  ((((getAds_validation_order ⟨false, false, false, none, false, []⟩ 20
    ⟨"24", "F", "TW", "ABC", "", "3"⟩ rfl).2 (by decide)).2 (by decide)).2 (by decide)).2
    (by decide)

/-- C6 (counterexample): when `getClient()` returns an error, a query whose age is supplied
and is not a valid integer is not answered with 400 "invalid age parameter": the handler
returns 500 "Failed to connect to database" before it reads any parameter. -/
theorem getAds_invalid_age_client_error :
    ("abc" ≠ "" ∧ (Atoi "abc").2 ≠ none) ∧
    getAds ⟨true, false, false, none, false, []⟩ 20 ⟨"abc", "F", "TW", "ios", "", "3"⟩ =
      .respond StatusInternalServerError (.error "Failed to connect to database") ∧
    getAds ⟨true, false, false, none, false, []⟩ 20 ⟨"abc", "F", "TW", "ios", "", "3"⟩ ≠
      badRequest "invalid age parameter" := by
  refine ⟨by decide, by decide, by decide⟩

/-! ## C7: case of the enum query parameters -/

/-- C7 (the code at the failing input): the query parameters are compared as they are,
without case normalisation. `gender=f` and `platform=IOS` and `country=kr` are answered
with 400, although their normalised forms `F`, `ios`, `KR` are accepted and select the ad. -/
theorem getAds_query_enums_are_case_sensitive :
    ToUpper "f" = some "F" ∧ ToUpper "kr" = some "KR" ∧ ToLower "IOS" = some "ios" ∧
    getAds ⟨false, false, false, none, false,
        [⟨"Test Ad 2", 10, 9999, [⟨20, 30, none, some ["KR", "JP"], some ["ios"]⟩], 0, 0⟩]⟩ 20
      ⟨"", "f", "", "", "", ""⟩ = badRequest "invalid gender parameter" ∧
    getAds ⟨false, false, false, none, false,
        [⟨"Test Ad 2", 10, 9999, [⟨20, 30, none, some ["KR", "JP"], some ["ios"]⟩], 0, 0⟩]⟩ 20
      ⟨"", "", "kr", "", "", ""⟩ = badRequest "invalid country parameter" ∧
    getAds ⟨false, false, false, none, false,
        [⟨"Test Ad 2", 10, 9999, [⟨20, 30, none, some ["KR", "JP"], some ["ios"]⟩], 0, 0⟩]⟩ 20
      ⟨"", "", "", "IOS", "", ""⟩ = badRequest "invalid platform parameter" ∧
    getAds ⟨false, false, false, none, false,
        [⟨"Test Ad 2", 10, 9999, [⟨20, 30, none, some ["KR", "JP"], some ["ios"]⟩], 0, 0⟩]⟩ 20
      ⟨"", "F", "KR", "ios", "", ""⟩ = .respond StatusOK (.items [⟨"Test Ad 2", 9999⟩]) := by
  refine ⟨by decide, by decide, by decide, by decide, by decide, by decide, by decide⟩

/-! ## C8: intake validation and the echoed record -/

/-- A time in UTC that is a whole number of milliseconds is printed as itself. -/
theorem Format_utc (t : Time) (h : t % 1000000 = 0) : Format t 0 = t := by
  have key : ∀ x : Int, x % 1000000 = 0 → (x + 0) / 1000000 * 1000000 = x := by
    intro x hx
    omega
  exact key t h

/-- For a candidate whose two times are in UTC and whole milliseconds, `MarshalJSON` writes
the candidate's own title, times and conditions. -/
theorem MarshalJSON_utc (ad : Advertisement) (h1 : ad.StartAtZone = 0) (h2 : ad.EndAtZone = 0)
    (h3 : ad.StartAt % 1000000 = 0) (h4 : ad.EndAt % 1000000 = 0) :
    ad.MarshalJSON = ⟨ad.Title, ad.StartAt, ad.EndAt, ad.Conditions⟩ := by
  unfold Advertisement.MarshalJSON
  rw [h1, h2, Format_utc _ h3, Format_utc _ h4]

/-- The intake validation of addAds: once the storage client is available, for every decoded
candidate ad, addAds answers 400 "Missing required fields" and attempts no insert iff the
title is empty or startAt or endAt is the zero timestamp; otherwise the candidate itself is
the one record passed to the insert and, when the insert succeeds, the answer is 201 with
the object that `MarshalJSON` writes for the candidate. Nothing is asked of the conditions. -/
theorem addAds_required_fields (st : Storage) (newAd : Advertisement)
    (hc : st.clientErr = false) :
    (addAds st (some newAd) =
        (.respond StatusBadRequest (.error "Missing required fields"), []) ↔
      newAd.Title = "" ∨ newAd.StartAt = 0 ∨ newAd.EndAt = 0) ∧
    (¬(newAd.Title = "" ∨ newAd.StartAt = 0 ∨ newAd.EndAt = 0) →
      (addAds st (some newAd)).2 = [newAd] ∧
      (st.insertErr = false →
        (addAds st (some newAd)).1 = .respond StatusCreated (.ad newAd.MarshalJSON))) := by
  by_cases h : newAd.Title = "" ∨ newAd.StartAt = 0 ∨ newAd.EndAt = 0
  · have h2 : newAd.Title = "" ∨ IsZero newAd.StartAt = true ∨ IsZero newAd.EndAt = true := by
      simpa [IsZero] using h
    simp [addAds, hc, h, h2]
  · have h2 : ¬(newAd.Title = "" ∨ IsZero newAd.StartAt = true ∨ IsZero newAd.EndAt = true) := by
      simpa [IsZero] using h
    refine ⟨?_, fun _ => ⟨?_, fun hi => ?_⟩⟩
    · simp only [addAds, hc, Bool.false_eq_true, if_false, if_neg h2, h, iff_false]
      cases st.insertErr <;> simp
    · simp only [addAds, hc, Bool.false_eq_true, if_false, if_neg h2]
      cases st.insertErr <;> simp
    · simp [addAds, hc, h2, hi]

/-- The intake validation at a complete candidate whose condition has ageStart > ageEnd: it
is inserted and answered with 201. -/
theorem addAds_required_fields_witness :
    (addAds ⟨false, false, false, none, false, []⟩
        (some ⟨"AD test", 100, 200, [⟨40, 30, none, some ["TW"], some []⟩], 0, 0⟩)).2 =
      [⟨"AD test", 100, 200, [⟨40, 30, none, some ["TW"], some []⟩], 0, 0⟩] ∧
    (addAds ⟨false, false, false, none, false, []⟩
        (some ⟨"AD test", 100, 200, [⟨40, 30, none, some ["TW"], some []⟩], 0, 0⟩)).1 =
      .respond StatusCreated (.ad (Advertisement.MarshalJSON
        ⟨"AD test", 100, 200, [⟨40, 30, none, some ["TW"], some []⟩], 0, 0⟩)) :=
  ⟨((addAds_required_fields ⟨false, false, false, none, false, []⟩
      ⟨"AD test", 100, 200, [⟨40, 30, none, some ["TW"], some []⟩], 0, 0⟩ rfl).2 (by decide)).1,
   ((addAds_required_fields ⟨false, false, false, none, false, []⟩
      ⟨"AD test", 100, 200, [⟨40, 30, none, some ["TW"], some []⟩], 0, 0⟩ rfl).2 (by decide)).2 rfl⟩

/-- C8 (the code at the failing input): a candidate whose times were written with the offset
`+08:00` passes the required-field check and is passed unchanged to the insert, but the 201
body is not the same record: `MarshalJSON` prints the wall clock of each time in its own
zone followed by a literal `Z`, so the body reads startAt = 2023-12-10T03:00:00.000Z and
endAt = 2024-12-31T16:00:00.000Z, eight hours after the instants of the record that was
inserted. With the same instants written with `Z` the body carries the record's instants. -/
theorem addAds_echo_shifts_zoned_times :
    addAds ⟨false, false, false, none, false, []⟩ (some zonedCandidate) =
      (.respond StatusCreated (.ad ⟨"AD test", 63837774000000000000, 63871257600000000000,
          [⟨30, 40, none, some ["TW", "JP"], some ["android", "ios"]⟩]⟩),
        [zonedCandidate]) ∧
    zonedCandidate.StartAt = 63837745200000000000 ∧
    zonedCandidate.EndAt = 63871228800000000000 ∧
    (63837774000000000000 : Int) = 63837745200000000000 + 8 * 3600 * 1000000000 ∧
    (63871257600000000000 : Int) = 63871228800000000000 + 8 * 3600 * 1000000000 ∧
    addAds ⟨false, false, false, none, false, []⟩ (some utcCandidate) =
      (.respond StatusCreated (.ad ⟨"AD test", 63837745200000000000, 63871228800000000000,
          [⟨30, 40, none, some ["TW", "JP"], some ["android", "ios"]⟩]⟩),
        [utcCandidate]) := by
  refine ⟨by decide, by decide, by decide, by decide, by decide, by decide⟩

/-! ## C9: decoding of enum values -/

/-- C9: payload decoding of enum values normalises case and fails closed. For every string
`s` decoded from the payload, `Gender.UnmarshalJSON` succeeds iff `upper s` is in {M, F} and
then stores `upper s`; `Country.UnmarshalJSON` succeeds iff `upper s` is in
{TW, JP, US, KR, TH} and then stores `upper s`; `Platform.UnmarshalJSON` succeeds iff
`lower s` is in {ios, android, web} and then stores `lower s`; in every other case, a
payload that is not a JSON string included, an error is returned and the target is
unchanged. Every stored value satisfies `IsValid`. -/
theorem UnmarshalJSON_fails_closed (upper lower : String → String) (s old : String) :
    (((Gender.UnmarshalJSON upper (.ok s) old).1 = none ↔ upper s = "M" ∨ upper s = "F") ∧
      ((Gender.UnmarshalJSON upper (.ok s) old).1 = none →
        (Gender.UnmarshalJSON upper (.ok s) old).2 = upper s ∧
        Gender.IsValid (Gender.UnmarshalJSON upper (.ok s) old).2 = true) ∧
      ((Gender.UnmarshalJSON upper (.ok s) old).1 ≠ none →
        (Gender.UnmarshalJSON upper (.ok s) old).2 = old) ∧
      (∀ err, Gender.UnmarshalJSON upper (.error err) old = (some err, old))) ∧
    (((Country.UnmarshalJSON upper (.ok s) old).1 = none ↔
        upper s = "TW" ∨ upper s = "JP" ∨ upper s = "US" ∨ upper s = "KR" ∨ upper s = "TH") ∧
      ((Country.UnmarshalJSON upper (.ok s) old).1 = none →
        (Country.UnmarshalJSON upper (.ok s) old).2 = upper s ∧
        Country.IsValid (Country.UnmarshalJSON upper (.ok s) old).2 = true) ∧
      ((Country.UnmarshalJSON upper (.ok s) old).1 ≠ none →
        (Country.UnmarshalJSON upper (.ok s) old).2 = old) ∧
      (∀ err, Country.UnmarshalJSON upper (.error err) old = (some err, old))) ∧
    (((Platform.UnmarshalJSON lower (.ok s) old).1 = none ↔
        lower s = "ios" ∨ lower s = "android" ∨ lower s = "web") ∧
      ((Platform.UnmarshalJSON lower (.ok s) old).1 = none →
        (Platform.UnmarshalJSON lower (.ok s) old).2 = lower s ∧
        Platform.IsValid (Platform.UnmarshalJSON lower (.ok s) old).2 = true) ∧
      ((Platform.UnmarshalJSON lower (.ok s) old).1 ≠ none →
        (Platform.UnmarshalJSON lower (.ok s) old).2 = old) ∧
      (∀ err, Platform.UnmarshalJSON lower (.error err) old = (some err, old))) := by
  refine ⟨?_, ?_, ?_⟩
  · rw [← Gender_IsValid_iff]
    cases h : Gender.IsValid (upper s) <;> simp [Gender.UnmarshalJSON, h]
  · rw [← Country_IsValid_iff]
    cases h : Country.IsValid (upper s) <;> simp [Country.UnmarshalJSON, h]
  · rw [← Platform_IsValid_iff]
    cases h : Platform.IsValid (lower s) <;> simp [Platform.UnmarshalJSON, h]

/-! ## Pagination (C4, C10) -/

theorem wrapInt_of_range (x : Int) (h0 : minInt64 ≤ x) (h1 : x ≤ maxInt64) : wrapInt x = x := by
  unfold wrapInt
  unfold minInt64 at h0
  unfold maxInt64 at h1
  omega

/-- A syntactically invalid number is read as 0. -/
theorem Atoi_syntax_error (s : String) (h : (Atoi s).2 = some .ErrSyntax) : (Atoi s).1 = 0 := by
  unfold Atoi ParseInt at *
  cases hs : s.toList with
  | nil => rfl
  | cons c cs =>
    simp only [hs] at h ⊢
    generalize ParseUint (if (c == '+' || c == '-') = true then cs else c :: cs) = r at h ⊢
    cases r with
    | error e =>
      cases e with
      | ErrSyntax => rfl
      | ErrRange => simp only [] at h; split_ifs at h <;> simp at h
    | ok un => simp only [] at h ⊢; split_ifs at h ⊢ <;> simp_all

/-- An offset at or past the number of items gives the empty list. -/
theorem paginate_offset_beyond (items : List AdItem) (q : QueryParams)
    (h : (Atoi q.offset).1 ≥ (items.length : Int)) :
    paginate items q = .respond StatusOK (.items []) := by
  simp [paginate, h]

/-- With an offset inside the list and a limit that does not parse, all items from the
offset onward are returned. -/
theorem paginate_unparsed_limit (items : List AdItem) (q : QueryParams)
    (h0 : 0 ≤ (Atoi q.offset).1) (h1 : (Atoi q.offset).1 < (items.length : Int))
    (hl : (Atoi q.limit).2 ≠ none) :
    paginate items q = .respond StatusOK (.items (items.drop (Atoi q.offset).1.toNat)) := by
  have h2 : ¬ (Atoi q.offset).1 ≥ (items.length : Int) := by omega
  have h3 : 0 ≤ (Atoi q.offset).1 ∧ (Atoi q.offset).1 ≤ (items.length : Int) ∧
      (items.length : Int) ≤ (items.length : Int) := ⟨h0, by omega, le_refl _⟩
  simp only [paginate, if_neg h2, if_neg hl, sliceItems, if_pos h3]
  congr 2
  apply List.take_of_length_le
  simp

/-- With an offset inside the list and a non-negative limit whose sum with the offset fits in
an `int`, the items from index offset up to index min(offset + limit, n) are returned. -/
theorem paginate_limit (items : List AdItem) (q : QueryParams)
    (h0 : 0 ≤ (Atoi q.offset).1) (h1 : (Atoi q.offset).1 < (items.length : Int))
    (hl : (Atoi q.limit).2 = none) (hl0 : 0 ≤ (Atoi q.limit).1)
    (hsum : (Atoi q.offset).1 + (Atoi q.limit).1 ≤ maxInt64) :
    paginate items q = .respond StatusOK
      (.items ((items.drop (Atoi q.offset).1.toNat).take (Atoi q.limit).1.toNat)) := by
  have h2 : ¬ (Atoi q.offset).1 ≥ (items.length : Int) := by omega
  have hw : wrapInt ((Atoi q.offset).1 + (Atoi q.limit).1) =
      (Atoi q.offset).1 + (Atoi q.limit).1 :=
    wrapInt_of_range _ (by unfold minInt64; omega) hsum
  simp only [paginate, if_neg h2, if_pos hl, hw, sliceItems]
  by_cases hgt : (Atoi q.offset).1 + (Atoi q.limit).1 > (items.length : Int)
  · have h3 : 0 ≤ (Atoi q.offset).1 ∧ (Atoi q.offset).1 ≤ (items.length : Int) ∧
        (items.length : Int) ≤ (items.length : Int) := ⟨h0, by omega, le_refl _⟩
    rw [if_pos hgt, if_pos h3]
    congr 2
    rw [List.take_of_length_le, List.take_of_length_le]
    · simp; omega
    · simp
  · have h3 : 0 ≤ (Atoi q.offset).1 ∧
        (Atoi q.offset).1 ≤ (Atoi q.offset).1 + (Atoi q.limit).1 ∧
        (Atoi q.offset).1 + (Atoi q.limit).1 ≤ (items.length : Int) := ⟨h0, by omega, by omega⟩
    rw [if_neg hgt, if_pos h3]
    congr 3
    omega

/-- An offset text that is a number too large for an `int` is not read as 0: `Atoi` returns
the largest `int` with a range error, the error is dropped, and the page is empty. -/
theorem paginate_offset_out_of_range :
    Atoi "99999999999999999999" = (9223372036854775807, some .ErrRange) ∧
    paginate [⟨"A", 30⟩, ⟨"B", 40⟩] ⟨"", "", "", "", "99999999999999999999", ""⟩ =
      .respond StatusOK (.items []) := by
  refine ⟨by decide, by decide⟩

/-- C4 (the code at the failing input): with two items, `offset=1` and
`limit=9223372036854775807`, a non-negative integer that `Atoi` reads without error, the sum
`offset + limit` wraps around to a negative end index, which is not clamped, and the slice
expression panics; the claim asks for the items from index 1 to index min(offset+limit, 2),
that is the one item "B". -/
theorem getAds_limit_overflow_panics :
    Atoi "1" = (1, none) ∧
    Atoi "9223372036854775807" = (9223372036854775807, none) ∧
    sortSlice [⟨"A", 30⟩, ⟨"B", 40⟩] = [⟨"A", 30⟩, ⟨"B", 40⟩] ∧
    ([⟨"A", 30⟩, ⟨"B", 40⟩].drop 1).take (min (1 + 9223372036854775807) 2 - 1) =
      [(⟨"B", 40⟩ : AdItem)] ∧
    paginate [⟨"A", 30⟩, ⟨"B", 40⟩] ⟨"", "", "", "", "1", "9223372036854775807"⟩ = .panicked ∧
    getAds ⟨false, false, false, none, false,
        [⟨"A", 10, 30, [⟨0, 100, none, none, none⟩], 0, 0⟩, ⟨"B", 10, 40, [⟨0, 100, none, none, none⟩], 0, 0⟩]⟩
      20 ⟨"", "", "", "", "1", "9223372036854775807"⟩ = .panicked := by
  refine ⟨by decide, by decide, by decide, by decide, by decide, by decide⟩

/-- C10 (the code at the failing input): a malformed limit is read like an absent one, but a
negative limit is not: `limit=-1` is parsed without error, the end index becomes
`offset - 1 < offset` and the slice expression panics. -/
theorem getAds_negative_limit_panics :
    Atoi "-1" = (-1, none) ∧
    getAds ⟨false, false, false, none, false,
        [⟨"A", 10, 30, [⟨0, 100, none, none, none⟩], 0, 0⟩, ⟨"B", 10, 40, [⟨0, 100, none, none, none⟩], 0, 0⟩]⟩
      20 ⟨"", "", "", "", "", ""⟩ = .respond StatusOK (.items [⟨"A", 30⟩, ⟨"B", 40⟩]) ∧
    getAds ⟨false, false, false, none, false,
        [⟨"A", 10, 30, [⟨0, 100, none, none, none⟩], 0, 0⟩, ⟨"B", 10, 40, [⟨0, 100, none, none, none⟩], 0, 0⟩]⟩
      20 ⟨"", "", "", "", "", "abc"⟩ = .respond StatusOK (.items [⟨"A", 30⟩, ⟨"B", 40⟩]) ∧
    getAds ⟨false, false, false, none, false,
        [⟨"A", 10, 30, [⟨0, 100, none, none, none⟩], 0, 0⟩, ⟨"B", 10, 40, [⟨0, 100, none, none, none⟩], 0, 0⟩]⟩
      20 ⟨"", "", "", "", "", "-1"⟩ = .panicked := by
  refine ⟨by decide, by decide, by decide, by decide⟩

/-! ## Correctness of the sort step -/

theorem Less_iff (l : List AdItem) (i j : Nat) : Less l i j = true ↔ K l i < K l j := by
  simp [Less, Before, K]

theorem Less_false_iff (l : List AdItem) (i j : Nat) : Less l i j = false ↔ K l j ≤ K l i := by
  rw [← Bool.not_eq_true, Less_iff]; omega

theorem Swap_length (l : List AdItem) (i j : Nat) : (Swap l i j).length = l.length := by
  simp [Swap]

theorem K_Swap (l : List AdItem) (i j m : Nat) (hi : i < l.length) (hj : j < l.length) :
    K (Swap l i j) m = if m = j then K l i else if m = i then K l j else K l m := by
  unfold K Swap
  simp only [List.getD_eq_getElem?_getD, List.getElem?_set, List.length_set]
  by_cases h1 : j = m
  · subst h1; simp [hj]
  · by_cases h2 : i = m
    · subst h2; simp [h1, hi, Ne.symm h1]
    · simp [h1, h2, Ne.symm h1, Ne.symm h2]

theorem cons_set_perm (t : List AdItem) (j : Nat) (a : AdItem) (h : j < t.length) :
    (t[j] :: t.set j a).Perm (a :: t) := by
  induction t generalizing j with
  | nil => simp at h
  | cons b t ih =>
    cases j with
    | zero => simpa using List.Perm.swap a b t
    | succ j =>
      simp only [List.length_cons, Nat.add_lt_add_iff_right] at h
      simp only [List.getElem_cons_succ, List.set_cons_succ]
      exact (List.Perm.swap b t[j] _).trans (((ih j h).cons b).trans (List.Perm.swap a b t))

theorem set_set_perm (l : List AdItem) (i j : Nat) (hi : i < l.length) (hj : j < l.length) :
    ((l.set i l[j]).set j l[i]).Perm l := by
  induction l generalizing i j with
  | nil => simp at hi
  | cons a t ih =>
    cases i with
    | zero =>
      cases j with
      | zero => simp
      | succ j =>
        simp only [List.length_cons, Nat.add_lt_add_iff_right] at hj
        simpa using cons_set_perm t j a hj
    | succ i =>
      simp only [List.length_cons, Nat.add_lt_add_iff_right] at hi
      cases j with
      | zero =>
        simpa using cons_set_perm t i a hi
      | succ j =>
        simp only [List.length_cons, Nat.add_lt_add_iff_right] at hj
        simpa using ih i j hi hj

theorem Swap_perm (l : List AdItem) (i j : Nat) (hi : i < l.length) (hj : j < l.length) :
    (Swap l i j).Perm l := by
  unfold Swap
  rw [List.getD_eq_getElem _ _ hi, List.getD_eq_getElem _ _ hj]
  exact set_set_perm l i j hi hj

theorem K_Swap_left (l : List AdItem) (i j : Nat) (hi : i < l.length) (hj : j < l.length) :
    K (Swap l i j) i = K l j := by
  rw [K_Swap l i j i hi hj]
  by_cases h : i = j
  · simp [h]
  · simp [h]

theorem K_Swap_right (l : List AdItem) (i j : Nat) (hi : i < l.length) (hj : j < l.length) :
    K (Swap l i j) j = K l i := by
  rw [K_Swap l i j j hi hj]; simp

theorem K_Swap_ne (l : List AdItem) (i j m : Nat) (hi : i < l.length) (hj : j < l.length)
    (h1 : m ≠ i) (h2 : m ≠ j) : K (Swap l i j) m = K l m := by
  rw [K_Swap l i j m hi hj]; simp [h1, h2]

theorem Frame.refl (a b : Nat) (l : List AdItem) : Frame a b l l :=
  ⟨List.Perm.refl l, fun _ _ => rfl, fun m h1 h2 => ⟨m, h1, h2, rfl⟩⟩

theorem Frame.length {a b : Nat} {l l' : List AdItem} (h : Frame a b l l') :
    l'.length = l.length := h.perm.length_eq

theorem Frame.trans {a b : Nat} {l l' l'' : List AdItem} (h : Frame a b l l')
    (h' : Frame a b l' l'') : Frame a b l l'' := by
  refine ⟨h'.perm.trans h.perm, fun m hm => (h'.out m hm).trans (h.out m hm), ?_⟩
  intro m h1 h2
  obtain ⟨j, hj1, hj2, hj⟩ := h'.ins m h1 h2
  obtain ⟨k, hk1, hk2, hk⟩ := h.ins j hj1 hj2
  exact ⟨k, hk1, hk2, hj.trans hk⟩

theorem Frame.mono {a b a' b' : Nat} {l l' : List AdItem} (h : Frame a b l l')
    (ha : a' ≤ a) (hb : b ≤ b') : Frame a' b' l l' := by
  refine ⟨h.perm, fun m hm => h.out m (by omega), ?_⟩
  intro m h1 h2
  by_cases hm : a ≤ m ∧ m < b
  · obtain ⟨j, hj1, hj2, hj⟩ := h.ins m hm.1 hm.2
    exact ⟨j, by omega, by omega, hj⟩
  · exact ⟨m, h1, h2, h.out m (by omega)⟩

theorem Frame.swap {a b : Nat} (l : List AdItem) (i j : Nat) (hi : a ≤ i) (hi' : i < b)
    (hj : a ≤ j) (hj' : j < b) (hb : b ≤ l.length) : Frame a b l (Swap l i j) := by
  have hil : i < l.length := by omega
  have hjl : j < l.length := by omega
  refine ⟨Swap_perm l i j hil hjl, fun m hm => K_Swap_ne l i j m hil hjl (by omega) (by omega), ?_⟩
  intro m h1 h2
  rw [K_Swap l i j m hil hjl]
  split_ifs
  · exact ⟨i, hi, hi', rfl⟩
  · exact ⟨j, hj, hj', rfl⟩
  · exact ⟨m, h1, h2, rfl⟩

/-- Lower bounds on the keys of a range survive a rearrangement of the range. -/
theorem Frame.lower {a b : Nat} {l l' : List AdItem} (h : Frame a b l l') (c : Int)
    (hc : ∀ m, a ≤ m → m < b → c ≤ K l m) : ∀ m, a ≤ m → m < b → c ≤ K l' m := by
  intro m h1 h2
  obtain ⟨j, hj1, hj2, hj⟩ := h.ins m h1 h2
  rw [hj]; exact hc j hj1 hj2

/-- Upper bounds on the keys of a range survive a rearrangement of the range. -/
theorem Frame.upper {a b : Nat} {l l' : List AdItem} (h : Frame a b l l') (c : Int)
    (hc : ∀ m, a ≤ m → m < b → K l m ≤ c) : ∀ m, a ≤ m → m < b → K l' m ≤ c := by
  intro m h1 h2
  obtain ⟨j, hj1, hj2, hj⟩ := h.ins m h1 h2
  rw [hj]; exact hc j hj1 hj2

theorem AdjSorted.sorted {l : List AdItem} {a b : Nat} (h : AdjSorted l a b) :
    SortedRange l a b := by
  intro i j hi hij hj
  induction j with
  | zero =>
    have : i = 0 := by omega
    subst this; exact le_refl _
  | succ j ih =>
    by_cases hc : i = j + 1
    · subst hc; exact le_refl _
    · exact le_trans (ih (by omega) (by omega)) (h j (by omega) hj)

theorem SortedRange.adj {l : List AdItem} {a b : Nat} (h : SortedRange l a b) :
    AdjSorted l a b := fun i hi hi' => h i (i + 1) hi (by omega) hi'

theorem insertionInner_spec (a e : Nat) (j : Nat) (l : List AdItem)
    (hj : a ≤ j) (hje : j < e) (he : e ≤ l.length)
    (h1 : ∀ m, a ≤ m → m + 1 < e → m + 1 ≠ j → K l m ≤ K l (m + 1))
    (h2 : a < j → j + 1 < e → K l (j - 1) ≤ K l (j + 1)) :
    Frame a e l (insertionInner a j l) ∧ AdjSorted (insertionInner a j l) a e := by
  induction j generalizing l with
  | zero =>
    refine ⟨Frame.refl _ _ _, fun m hm1 hm2 => h1 m hm1 hm2 (by omega)⟩
  | succ j ih =>
    unfold insertionInner
    by_cases hc : (decide (a < j + 1) && Less l (j + 1) j) = true
    · rw [if_pos hc]
      simp only [Bool.and_eq_true, decide_eq_true_eq, Less_iff] at hc
      have hjl : j < l.length := by omega
      have hjl' : j + 1 < l.length := by omega
      have eA : K (Swap l (j + 1) j) j = K l (j + 1) := K_Swap_right l (j + 1) j hjl' hjl
      have eB : K (Swap l (j + 1) j) (j + 1) = K l j := K_Swap_left l (j + 1) j hjl' hjl
      have eC : ∀ m, m ≠ j + 1 → m ≠ j → K (Swap l (j + 1) j) m = K l m :=
        fun m => K_Swap_ne l (j + 1) j m hjl' hjl
      have hfr : Frame a e l (Swap l (j + 1) j) :=
        Frame.swap l (j + 1) j (by omega) (by omega) (by omega) (by omega) he
      have := ih (Swap l (j + 1) j) (by omega) (by omega) (by rw [Swap_length]; exact he)
        (by
          intro m hm1 hm2 hm3
          by_cases c1 : m = j
          · subst c1; rw [eA, eB]; omega
          · by_cases c2 : m = j + 1
            · subst c2
              have := h2 (by omega) (by omega)
              rw [show j + 1 - 1 = j by omega] at this
              rw [eB, eC (j + 1 + 1) (by omega) (by omega)]
              exact this
            · rw [eC m c2 c1, eC (m + 1) (by omega) (by omega)]
              exact h1 m hm1 hm2 (by omega))
        (by
          intro c1 c2
          have := h1 (j - 1) (by omega) (by omega) (by omega)
          rw [show j - 1 + 1 = j by omega] at this
          rw [eC (j - 1) (by omega) (by omega), eB]
          exact this)
      exact ⟨hfr.trans this.1, this.2⟩
    · rw [if_neg hc]
      refine ⟨Frame.refl _ _ _, ?_⟩
      intro m hm1 hm2
      by_cases c1 : m = j
      · subst c1
        simp only [Bool.and_eq_true, decide_eq_true_eq, Less_iff, not_and] at hc
        have := hc (by omega)
        omega
      · exact h1 m hm1 hm2 (by omega)

theorem insertionOuter_spec (a : Nat) (n i : Nat) (l : List AdItem)
    (hi : a < i) (he : i + n ≤ l.length) (hs : AdjSorted l a i) :
    Frame a (i + n) l (insertionOuter a n i l) ∧
      AdjSorted (insertionOuter a n i l) a (i + n) := by
  induction n generalizing i l with
  | zero => exact ⟨Frame.refl _ _ _, hs⟩
  | succ n ih =>
    unfold insertionOuter
    have h1 := insertionInner_spec a (i + 1) i l (by omega) (by omega) (by omega)
      (fun m hm1 hm2 _ => hs m hm1 (by omega)) (fun _ h => by omega)
    have h2 := ih (i + 1) (insertionInner a i l) (by omega)
      (by rw [h1.1.length]; omega) h1.2
    rw [show i + 1 + n = i + (n + 1) by omega] at h2
    exact ⟨(h1.1.mono (le_refl _) (by omega)).trans h2.1, h2.2⟩

/-- The insertion sort sorts `[a, b)` and touches nothing else. -/
theorem insertionSort_spec (l : List AdItem) (a b : Nat) (hb : b ≤ l.length) :
    Frame a b l (insertionSort_func l a b) ∧ SortedRange (insertionSort_func l a b) a b := by
  unfold insertionSort_func
  by_cases h : a + 1 < b
  · have := insertionOuter_spec a (b - (a + 1)) (a + 1) l (by omega) (by omega)
      (fun i h1 h2 => by omega)
    rw [show a + 1 + (b - (a + 1)) = b by omega] at this
    exact ⟨this.1, this.2.sorted⟩
  · rw [show b - (a + 1) = 0 by omega]
    refine ⟨Frame.refl _ _ _, ?_⟩
    intro i j h1 h2 h3
    have : i = j := by omega
    subst this; exact le_refl _

/-! ### Heap sort -/

theorem siftDown_spec (fuel : Nat) (l : List AdItem) (root hi first lo : Nat)
    (hfuel : hi ≤ root + fuel) (hlo : lo ≤ root) (hlen : first + hi ≤ l.length)
    (hE : HeapExcept l first lo hi root) (hB : Bridge l first lo hi root) :
    Frame (first + lo) (first + hi) l (siftDown_func fuel l root hi first) ∧
      Heap (siftDown_func fuel l root hi first) first lo hi := by
  induction fuel generalizing l root with
  | zero =>
    refine ⟨Frame.refl _ _ _, ?_⟩
    intro r c hr hc hcr
    exact hE r c hr hc hcr (by omega)
  | succ fuel ih =>
    unfold siftDown_func
    by_cases h0 : 2 * root + 1 ≥ hi
    · rw [if_pos h0]
      refine ⟨Frame.refl _ _ _, ?_⟩
      intro r c hr hc hcr
      exact hE r c hr hc hcr (by omega)
    · rw [if_neg h0]
      simp only []
      generalize hch : (if (decide (2 * root + 1 + 1 < hi) &&
          Less l (first + (2 * root + 1)) (first + (2 * root + 1) + 1)) = true
          then 2 * root + 1 + 1 else 2 * root + 1) = child
      have hchild : (child = 2 * root + 1 ∨ child = 2 * root + 2) ∧ child < hi ∧
          ∀ c, c < hi → (c = 2 * root + 1 ∨ c = 2 * root + 2) →
            K l (first + c) ≤ K l (first + child) := by
        by_cases hc : (decide (2 * root + 1 + 1 < hi) &&
          Less l (first + (2 * root + 1)) (first + (2 * root + 1) + 1)) = true
        · rw [if_pos hc] at hch
          simp only [Bool.and_eq_true, decide_eq_true_eq, Less_iff] at hc
          subst hch
          refine ⟨Or.inr rfl, hc.1, ?_⟩
          intro c hc1 hc2
          rcases hc2 with rfl | rfl
          · have := hc.2
            rw [show first + (2 * root + 1) + 1 = first + (2 * root + 1 + 1) by omega] at this
            omega
          · exact le_refl _
        · rw [if_neg hc] at hch
          simp only [Bool.and_eq_true, decide_eq_true_eq, Less_iff, not_and] at hc
          subst hch
          refine ⟨Or.inl rfl, by omega, ?_⟩
          intro c hc1 hc2
          rcases hc2 with rfl | rfl
          · exact le_refl _
          · have := hc hc1
            rw [show first + (2 * root + 1) + 1 = first + (2 * root + 2) by omega] at this
            omega
      obtain ⟨hch1, hch2, hmax⟩ := hchild
      by_cases h1 : (!Less l (first + root) (first + child)) = true
      · rw [if_pos h1]
        simp only [Bool.not_eq_true', Less_false_iff] at h1
        refine ⟨Frame.refl _ _ _, ?_⟩
        intro r c hr hc hcr
        by_cases hrr : r = root
        · subst hrr
          exact le_trans (hmax c hc hcr) h1
        · exact hE r c hr hc hcr hrr
      · rw [if_neg h1]
        simp only [Bool.not_eq_true', Bool.not_eq_false, Less_iff] at h1
        have hrl : first + root < l.length := by omega
        have hcl : first + child < l.length := by omega
        have eA : K (Swap l (first + root) (first + child)) (first + root) =
            K l (first + child) := K_Swap_left l _ _ hrl hcl
        have eB : K (Swap l (first + root) (first + child)) (first + child) =
            K l (first + root) := K_Swap_right l _ _ hrl hcl
        have eC : ∀ m, m ≠ root → m ≠ child →
            K (Swap l (first + root) (first + child)) (first + m) = K l (first + m) :=
          fun m h1 h2 => K_Swap_ne l _ _ _ hrl hcl (by omega) (by omega)
        have hfr : Frame (first + lo) (first + hi) l (Swap l (first + root) (first + child)) :=
          Frame.swap l _ _ (by omega) (by omega) (by omega) (by omega) hlen
        have := ih (Swap l (first + root) (first + child)) child (by omega) (by omega)
          (by rw [Swap_length]; exact hlen)
          (by
            intro r c hr hc hcr hne
            by_cases hrr : r = root
            · subst hrr
              rw [eA]
              by_cases hcc : c = child
              · subst hcc; rw [eB]; omega
              · rw [eC c (by omega) hcc]
                exact hmax c hc hcr
            · rw [eC r hrr hne]
              by_cases hcc : c = root
              · subst hcc
                rw [eA]
                exact hB r child hr hcr hch2 hch1
              · by_cases hcd : c = child
                · omega
                · rw [eC c hcc hcd]
                  exact hE r c hr hc hcr hrr)
          (by
            intro p c hp hpc hc hcc
            have hpr : p = root := by omega
            subst hpr
            rw [eA, eC c (by omega) (by omega)]
            exact hE child c (by omega) hc hcc (by omega))
        exact ⟨hfr.trans this.1, this.2⟩

theorem heapBuild_spec (i : Nat) (l : List AdItem) (hi first : Nat)
    (hlen : first + hi ≤ l.length) (hH : Heap l first (i + 1) hi) :
    Frame first (first + hi) l (heapBuild i l hi first) ∧
      Heap (heapBuild i l hi first) first 0 hi := by
  induction i generalizing l with
  | zero =>
    unfold heapBuild
    have := siftDown_spec hi l 0 hi first 0 (by omega) (le_refl _) hlen
      (fun r c _ hc hcr hne => hH r c (by omega) hc hcr)
      (fun p c _ hpc _ _ => by omega)
    exact ⟨this.1, this.2⟩
  | succ i ih =>
    unfold heapBuild
    have h1 := siftDown_spec hi l (i + 1) hi first (i + 1) (by omega) (le_refl _) hlen
      (fun r c hr hc hcr hne => hH r c (by omega) hc hcr)
      (fun p c hp hpc _ _ => by omega)
    have h2 := ih (siftDown_func hi l (i + 1) hi first) (by rw [h1.1.length]; exact hlen) h1.2
    exact ⟨(h1.1.mono (by omega) (le_refl _)).trans h2.1, h2.2⟩

/-- The root of a heap carries the greatest key. -/
theorem Heap.root_max {l : List AdItem} {first n : Nat} (h : Heap l first 0 n) :
    ∀ r, r < n → K l (first + r) ≤ K l (first + 0) := by
  intro r
  induction r using Nat.strong_induction_on with
  | _ r ih =>
    intro hr
    by_cases h0 : r = 0
    · subst h0; exact le_refl _
    · have h1 := ih ((r - 1) / 2) (by omega) (by omega)
      have h2 := h ((r - 1) / 2) r (Nat.zero_le _) hr (by omega)
      exact le_trans h2 h1

theorem heapPop_spec (i : Nat) (l : List AdItem) (hi first : Nat)
    (hi' : i < hi) (hlen : first + hi ≤ l.length) (hH : Heap l first 0 (i + 1))
    (hS : SortedRange l (first + (i + 1)) (first + hi))
    (hX : ∀ p q, p ≤ i → i < q → q < hi → K l (first + p) ≤ K l (first + q)) :
    Frame first (first + hi) l (heapPop i l first) ∧
      SortedRange (heapPop i l first) first (first + hi) := by
  induction i generalizing l with
  | zero =>
    unfold heapPop siftDown_func
    have hfl : first < l.length := by omega
    have e : ∀ m, K (Swap l first (first + 0)) m = K l m := by
      intro m
      rw [K_Swap l first (first + 0) m hfl (by omega)]
      by_cases h1 : m = first + 0
      · rw [if_pos h1, h1]; rfl
      · rw [if_neg h1]
        by_cases h2 : m = first
        · omega
        · rw [if_neg h2]
    refine ⟨Frame.swap l _ _ (le_refl _) (by omega) (by omega) (by omega) hlen, ?_⟩
    intro p q hp hpq hq
    rw [e p, e q]
    by_cases h1 : p = first
    · by_cases h2 : q = first
      · rw [h1, h2]
      · have := hX 0 (q - first) (le_refl _) (by omega) (by omega)
        rw [show first + (q - first) = q by omega] at this
        rw [h1]; exact this
    · exact hS p q (by omega) hpq hq
  | succ i ih =>
    unfold heapPop
    have hfl : first < l.length := by omega
    have hil : first + (i + 1) < l.length := by omega
    have eA : K (Swap l first (first + (i + 1))) first = K l (first + (i + 1)) :=
      K_Swap_left l _ _ hfl hil
    have eB : K (Swap l first (first + (i + 1))) (first + (i + 1)) = K l first :=
      K_Swap_right l _ _ hfl hil
    have eC : ∀ m, m ≠ 0 → m ≠ i + 1 →
        K (Swap l first (first + (i + 1))) (first + m) = K l (first + m) :=
      fun m h1 h2 => K_Swap_ne l _ _ _ hfl hil (by omega) (by omega)
    have hfr : Frame first (first + hi) l (Swap l first (first + (i + 1))) :=
      Frame.swap l _ _ (le_refl _) (by omega) (by omega) (by omega) hlen
    have hmax := hH.root_max
    have h1 := siftDown_spec (i + 1) (Swap l first (first + (i + 1))) 0 (i + 1) first 0
      (by omega) (le_refl _) (by rw [Swap_length]; omega)
      (by
        intro r c _ hc hcr hne
        rw [eC r hne (by omega), eC c (by omega) (by omega)]
        exact hH r c (Nat.zero_le _) (by omega) hcr)
      (fun p c _ hpc _ _ => by omega)
    have hout : ∀ q, i < q → K (siftDown_func (i + 1) (Swap l first (first + (i + 1))) 0 (i + 1)
        first) (first + q) = K (Swap l first (first + (i + 1))) (first + q) :=
      fun q hq => h1.1.out (first + q) (Or.inr (by omega))
    have hle : ∀ p, p ≤ i → ∀ c : Int, (∀ j, j ≤ i + 1 → K l (first + j) ≤ c) →
        K (siftDown_func (i + 1) (Swap l first (first + (i + 1))) 0 (i + 1) first)
          (first + p) ≤ c := by
      intro p hp c hc
      obtain ⟨j, hj1, hj2, hj⟩ := h1.1.ins (first + p) (by omega) (by omega)
      rw [hj]
      by_cases hj0 : j = first
      · rw [hj0, eA]; exact hc (i + 1) (le_refl _)
      · have := eC (j - first) (by omega) (by omega)
        rw [show first + (j - first) = j by omega] at this
        rw [this]
        have := hc (j - first) (by omega)
        rw [show first + (j - first) = j by omega] at this
        exact this
    have h2 := ih (siftDown_func (i + 1) (Swap l first (first + (i + 1))) 0 (i + 1) first)
      (by omega) (by rw [h1.1.length, Swap_length]; exact hlen) h1.2
      (by
        intro p q hp hpq hq
        have ep := hout (p - first) (by omega)
        have eq := hout (q - first) (by omega)
        rw [show first + (p - first) = p by omega] at ep
        rw [show first + (q - first) = q by omega] at eq
        rw [ep, eq]
        by_cases hp1 : p = first + (i + 1)
        · by_cases hq1 : q = first + (i + 1)
          · rw [hp1, hq1]
          · have e2 := eC (q - first) (by omega) (by omega)
            rw [show first + (q - first) = q by omega] at e2
            rw [hp1, eB, e2]
            have := hX 0 (q - first) (Nat.zero_le _) (by omega) (by omega)
            rw [show first + (q - first) = q by omega] at this
            exact this
        · have e1 := eC (p - first) (by omega) (by omega)
          rw [show first + (p - first) = p by omega] at e1
          have e2 := eC (q - first) (by omega) (by omega)
          rw [show first + (q - first) = q by omega] at e2
          rw [e1, e2]
          exact hS p q (by omega) hpq hq)
      (by
        intro p q hp hpq hq
        rw [hout q hpq]
        by_cases hq1 : q = i + 1
        · rw [hq1, eB]
          exact hle p hp _ (fun j hj => hmax j (by omega))
        · rw [eC q (by omega) hq1]
          exact hle p hp _ (fun j hj => hX j q hj (by omega) hq))
    exact ⟨hfr.trans ((h1.1.mono (by omega) (by omega)).trans h2.1), h2.2⟩

/-- The heap sort sorts `[a, b)` and touches nothing else. -/
theorem heapSort_spec (l : List AdItem) (a b : Nat) (hab : a ≤ b) (hb : b ≤ l.length) :
    Frame a b l (heapSort_func l a b) ∧ SortedRange (heapSort_func l a b) a b := by
  unfold heapSort_func
  simp only []
  have h1 := heapBuild_spec ((b - a - 1) / 2) l (b - a) a (by omega)
    (fun r c hr hc hcr => by omega)
  rw [show a + (b - a) = b by omega] at h1
  by_cases h0 : b - a = 0
  · rw [if_pos h0]
    exact ⟨h1.1, fun i j hi hij hj => by omega⟩
  · rw [if_neg h0]
    have h2 := heapPop_spec (b - a - 1) (heapBuild ((b - a - 1) / 2) l (b - a) a) (b - a) a
      (by omega) (by rw [h1.1.length]; omega)
      (by rw [show b - a - 1 + 1 = b - a by omega]; exact h1.2)
      (fun i j hi hij hj => by omega) (fun p q hp hpq hq => by omega)
    rw [show a + (b - a) = b by omega] at h2
    exact ⟨h1.1.trans h2.1, h2.2⟩

/-! ### Partition -/

theorem scanUp_spec (fuel : Nat) (l : List AdItem) (i j a : Nat)
    (hf : j + 1 ≤ i + fuel) (hij : i ≤ j + 1) :
    i ≤ scanUp fuel l i j a ∧ scanUp fuel l i j a ≤ j + 1 ∧
      (∀ m, i ≤ m → m < scanUp fuel l i j a → K l m < K l a) ∧
      (scanUp fuel l i j a ≤ j → K l a ≤ K l (scanUp fuel l i j a)) := by
  induction fuel generalizing i with
  | zero =>
    unfold scanUp
    exact ⟨le_refl _, hij, fun m h1 h2 => by omega, fun h => by omega⟩
  | succ fuel ih =>
    unfold scanUp
    by_cases hc : (decide (i ≤ j) && Less l i a) = true
    · rw [if_pos hc]
      simp only [Bool.and_eq_true, decide_eq_true_eq, Less_iff] at hc
      obtain ⟨h1, h2, h3, h4⟩ := ih (i + 1) (by omega) (by omega)
      refine ⟨by omega, h2, ?_, h4⟩
      intro m hm1 hm2
      by_cases hmi : m = i
      · subst hmi; exact hc.2
      · exact h3 m (by omega) hm2
    · rw [if_neg hc]
      simp only [Bool.and_eq_true, decide_eq_true_eq, Less_iff, not_and] at hc
      refine ⟨le_refl _, hij, fun m h1 h2 => by omega, fun h => ?_⟩
      have := hc h
      omega

theorem scanDown_spec (l : List AdItem) (i a j : Nat) (hij : i ≤ j + 1) (hi : 1 ≤ i) :
    scanDown l i a j ≤ j ∧ i ≤ scanDown l i a j + 1 ∧
      (∀ m, scanDown l i a j < m → m ≤ j → K l a ≤ K l m) ∧
      (i ≤ scanDown l i a j → K l (scanDown l i a j) < K l a) := by
  induction j with
  | zero =>
    unfold scanDown
    exact ⟨le_refl _, by omega, fun m h1 h2 => by omega, fun h => by omega⟩
  | succ j ih =>
    unfold scanDown
    by_cases hc : (decide (i ≤ j + 1) && !Less l (j + 1) a) = true
    · rw [if_pos hc]
      simp only [Bool.and_eq_true, decide_eq_true_eq, Bool.not_eq_true', Less_false_iff] at hc
      obtain ⟨h1, h2, h3, h4⟩ := ih (by omega)
      refine ⟨by omega, h2, ?_, h4⟩
      intro m hm1 hm2
      by_cases hmj : m = j + 1
      · subst hmj; exact hc.2
      · exact h3 m hm1 (by omega)
    · rw [if_neg hc]
      simp only [Bool.and_eq_true, decide_eq_true_eq, Bool.not_eq_true', Less_false_iff,
        not_and] at hc
      refine ⟨le_refl _, by omega, fun m h1 h2 => by omega, fun h => ?_⟩
      have := hc h
      omega

/-- One round of the partition loop: both scans, then either the end or a swap. -/
theorem partition_round (l : List AdItem) (a b i j : Nat) (h : PartInv l a b i j) :
    (scanUp (j + 1 - i) l i j a > scanDown l (scanUp (j + 1 - i) l i j a) a j →
      PartDone l a b (scanDown l (scanUp (j + 1 - i) l i j a) a j)) ∧
    (¬ scanUp (j + 1 - i) l i j a > scanDown l (scanUp (j + 1 - i) l i j a) a j →
      PartInv (Swap l (scanUp (j + 1 - i) l i j a) (scanDown l (scanUp (j + 1 - i) l i j a) a j))
        a b (scanUp (j + 1 - i) l i j a + 1) (scanDown l (scanUp (j + 1 - i) l i j a) a j - 1) ∧
      Frame (a + 1) b l
        (Swap l (scanUp (j + 1 - i) l i j a) (scanDown l (scanUp (j + 1 - i) l i j a) a j)) ∧
      scanDown l (scanUp (j + 1 - i) l i j a) a j - 1 + 1 -
        (scanUp (j + 1 - i) l i j a + 1) < j + 1 - i) := by
  obtain ⟨h1, h2, h3, h4, h5, h6⟩ := h
  obtain ⟨u1, u2, u3, u4⟩ := scanUp_spec (j + 1 - i) l i j a (by omega) h2
  generalize scanUp (j + 1 - i) l i j a = i1 at u1 u2 u3 u4 ⊢
  obtain ⟨d1, d2, d3, d4⟩ := scanDown_spec l i1 a j u2 (by omega)
  generalize scanDown l i1 a j = j1 at d1 d2 d3 d4 ⊢
  constructor
  · intro hgt
    refine ⟨by omega, by omega, ?_, ?_⟩
    · intro m hm1 hm2
      by_cases hmi : m < i
      · exact h5 m hm1 hmi
      · exact u3 m (by omega) (by omega)
    · intro m hm1 hm2
      by_cases hmj : m ≤ j
      · exact d3 m hm1 hmj
      · exact h6 m (by omega) hm2
  · intro hle
    have hu := u4 (by omega)
    have hd := d4 (by omega)
    have hlt : i1 < j1 := by
      by_contra hc
      have : i1 = j1 := by omega
      subst this
      omega
    have hil : i1 < l.length := by omega
    have hjl : j1 < l.length := by omega
    have eA : K (Swap l i1 j1) i1 = K l j1 := K_Swap_left l _ _ hil hjl
    have eB : K (Swap l i1 j1) j1 = K l i1 := K_Swap_right l _ _ hil hjl
    have eC : ∀ m, m ≠ i1 → m ≠ j1 → K (Swap l i1 j1) m = K l m :=
      fun m => K_Swap_ne l _ _ m hil hjl
    refine ⟨⟨by omega, by omega, by omega, by rw [Swap_length]; exact h4, ?_, ?_⟩,
      Frame.swap l _ _ (by omega) (by omega) (by omega) (by omega) h4, by omega⟩
    · intro m hm1 hm2
      rw [eC a (by omega) (by omega)]
      by_cases hmi : m = i1
      · subst hmi; rw [eA]; exact hd
      · rw [eC m hmi (by omega)]
        by_cases hmi' : m < i
        · exact h5 m hm1 hmi'
        · exact u3 m (by omega) (by omega)
    · intro m hm1 hm2
      rw [eC a (by omega) (by omega)]
      by_cases hmj : m = j1
      · subst hmj; rw [eB]; exact hu
      · rw [eC m (by omega) hmj]
        by_cases hmj' : m ≤ j
        · exact d3 m (by omega) hmj'
        · exact h6 m (by omega) hm2

theorem partitionLoop_spec (fuel : Nat) (l : List AdItem) (a b i j : Nat)
    (hf : j + 1 - i ≤ fuel) (h : PartInv l a b i j) :
    Frame (a + 1) b l (partitionLoop fuel l i j a).1 ∧
      PartDone (partitionLoop fuel l i j a).1 a b (partitionLoop fuel l i j a).2 := by
  induction fuel generalizing l i j with
  | zero =>
    unfold partitionLoop
    obtain ⟨h1, h2, h3, h4, h5, h6⟩ := h
    exact ⟨Frame.refl _ _ _, by omega, h3, fun m hm1 hm2 => h5 m hm1 (by omega), h6⟩
  | succ fuel ih =>
    unfold partitionLoop
    simp only []
    obtain ⟨r1, r2⟩ := partition_round l a b i j h
    by_cases hc : scanUp (j + 1 - i) l i j a > scanDown l (scanUp (j + 1 - i) l i j a) a j
    · rw [if_pos hc]
      exact ⟨Frame.refl _ _ _, r1 hc⟩
    · rw [if_neg hc]
      obtain ⟨s1, s2, s3⟩ := r2 hc
      have := ih _ _ _ (by omega) s1
      exact ⟨s2.trans this.1, this.2⟩

/-- The final swap of the partition puts the pivot at the split point. -/
theorem partition_finish (l : List AdItem) (a b j : Nat) (hb : b ≤ l.length)
    (h : PartDone l a b j) :
    Frame a b l (Swap l j a) ∧
      (∀ m, a ≤ m → m < j → K (Swap l j a) m < K (Swap l j a) j) ∧
      (∀ m, j < m → m < b → K (Swap l j a) j ≤ K (Swap l j a) m) := by
  obtain ⟨h1, h2, h3, h4⟩ := h
  have hjl : j < l.length := by omega
  have hal : a < l.length := by omega
  have eA : K (Swap l j a) j = K l a := K_Swap_left l _ _ hjl hal
  have eB : K (Swap l j a) a = K l j := K_Swap_right l _ _ hjl hal
  have eC : ∀ m, m ≠ j → m ≠ a → K (Swap l j a) m = K l m :=
    fun m => K_Swap_ne l _ _ m hjl hal
  refine ⟨Frame.swap l _ _ h1 h2 (le_refl _) (by omega) hb, ?_, ?_⟩
  · intro m hm1 hm2
    rw [eA]
    by_cases hma : m = a
    · subst hma; rw [eB]; exact h3 j (by omega) (le_refl _)
    · rw [eC m (by omega) hma]; exact h3 m (by omega) (by omega)
  · intro m hm1 hm2
    rw [eA, eC m (by omega) (by omega)]
    exact h4 m hm1 hm2

/-- The partition splits `[a, b)` at the returned index: smaller keys before it, keys that
are not smaller after it. -/
theorem partition_spec (l : List AdItem) (a b pivot : Nat) (ha : a ≤ pivot) (hp : pivot < b)
    (hb : b ≤ l.length) :
    Frame a b l (partition_func l a b pivot).1 ∧
      a ≤ (partition_func l a b pivot).2.1 ∧ (partition_func l a b pivot).2.1 < b ∧
      (∀ m, a ≤ m → m < (partition_func l a b pivot).2.1 →
        K (partition_func l a b pivot).1 m <
          K (partition_func l a b pivot).1 (partition_func l a b pivot).2.1) ∧
      (∀ m, (partition_func l a b pivot).2.1 < m → m < b →
        K (partition_func l a b pivot).1 (partition_func l a b pivot).2.1 ≤
          K (partition_func l a b pivot).1 m) := by
  have hf0 : Frame a b l (Swap l a pivot) :=
    Frame.swap l _ _ (le_refl _) (by omega) ha hp hb
  have hinv : PartInv (Swap l a pivot) a b (a + 1) (b - 1) :=
    ⟨by omega, by omega, by omega, by rw [Swap_length]; exact hb,
      fun m h1 h2 => by omega, fun m h1 h2 => by omega⟩
  obtain ⟨r1, r2⟩ := partition_round (Swap l a pivot) a b (a + 1) (b - 1) hinv
  unfold partition_func
  simp only []
  by_cases hc : scanUp (b - 1 + 1 - (a + 1)) (Swap l a pivot) (a + 1) (b - 1) a >
      scanDown (Swap l a pivot) (scanUp (b - 1 + 1 - (a + 1)) (Swap l a pivot) (a + 1) (b - 1) a)
        a (b - 1)
  · rw [if_pos hc]
    have hd := r1 hc
    obtain ⟨f1, f2, f3⟩ := partition_finish _ a b _ (by rw [Swap_length]; exact hb) hd
    exact ⟨hf0.trans f1, hd.1, hd.2.1, f2, f3⟩
  · rw [if_neg hc]
    obtain ⟨s1, s2, s3⟩ := r2 hc
    obtain ⟨t1, t2⟩ := partitionLoop_spec _ _ a b _ _ (le_refl _) s1
    obtain ⟨f1, f2, f3⟩ := partition_finish _ a b _
      (by rw [t1.length, Swap_length, Swap_length]; exact hb) t2
    exact ⟨hf0.trans (((s2.trans t1).mono (by omega) (le_refl _)).trans f1),
      t2.1, t2.2.1, f2, f3⟩

/-! ### Partition into equal and greater keys -/

theorem scanUpEq_spec (fuel : Nat) (l : List AdItem) (i j a : Nat)
    (hf : j + 1 ≤ i + fuel) (hij : i ≤ j + 1) :
    i ≤ scanUpEq fuel l i j a ∧ scanUpEq fuel l i j a ≤ j + 1 ∧
      (∀ m, i ≤ m → m < scanUpEq fuel l i j a → K l m ≤ K l a) ∧
      (scanUpEq fuel l i j a ≤ j → K l a < K l (scanUpEq fuel l i j a)) := by
  induction fuel generalizing i with
  | zero =>
    unfold scanUpEq
    exact ⟨le_refl _, hij, fun m h1 h2 => by omega, fun h => by omega⟩
  | succ fuel ih =>
    unfold scanUpEq
    by_cases hc : (decide (i ≤ j) && !Less l a i) = true
    · rw [if_pos hc]
      simp only [Bool.and_eq_true, decide_eq_true_eq, Bool.not_eq_true', Less_false_iff] at hc
      obtain ⟨h1, h2, h3, h4⟩ := ih (i + 1) (by omega) (by omega)
      refine ⟨by omega, h2, ?_, h4⟩
      intro m hm1 hm2
      by_cases hmi : m = i
      · subst hmi; exact hc.2
      · exact h3 m (by omega) hm2
    · rw [if_neg hc]
      simp only [Bool.and_eq_true, decide_eq_true_eq, Bool.not_eq_true', Less_false_iff,
        not_and] at hc
      refine ⟨le_refl _, hij, fun m h1 h2 => by omega, fun h => ?_⟩
      have := hc h
      omega

theorem scanDownEq_spec (l : List AdItem) (i a j : Nat) (hij : i ≤ j + 1) (hi : 1 ≤ i) :
    scanDownEq l i a j ≤ j ∧ i ≤ scanDownEq l i a j + 1 ∧
      (∀ m, scanDownEq l i a j < m → m ≤ j → K l a < K l m) ∧
      (i ≤ scanDownEq l i a j → K l (scanDownEq l i a j) ≤ K l a) := by
  induction j with
  | zero =>
    unfold scanDownEq
    exact ⟨le_refl _, by omega, fun m h1 h2 => by omega, fun h => by omega⟩
  | succ j ih =>
    unfold scanDownEq
    by_cases hc : (decide (i ≤ j + 1) && Less l a (j + 1)) = true
    · rw [if_pos hc]
      simp only [Bool.and_eq_true, decide_eq_true_eq, Less_iff] at hc
      obtain ⟨h1, h2, h3, h4⟩ := ih (by omega)
      refine ⟨by omega, h2, ?_, h4⟩
      intro m hm1 hm2
      by_cases hmj : m = j + 1
      · subst hmj; exact hc.2
      · exact h3 m hm1 (by omega)
    · rw [if_neg hc]
      simp only [Bool.and_eq_true, decide_eq_true_eq, Less_iff, not_and] at hc
      refine ⟨le_refl _, by omega, fun m h1 h2 => by omega, fun h => ?_⟩
      have := hc h
      omega

theorem partitionEqualLoop_spec (fuel : Nat) (l : List AdItem) (a b i j : Nat)
    (hf : j + 1 - i ≤ fuel) (h : PartInvEq l a b i j) :
    Frame (a + 1) b l (partitionEqualLoop fuel l i j a).1 ∧
      a < (partitionEqualLoop fuel l i j a).2 ∧ (partitionEqualLoop fuel l i j a).2 ≤ b ∧
      (∀ m, a < m → m < (partitionEqualLoop fuel l i j a).2 →
        K (partitionEqualLoop fuel l i j a).1 m ≤ K (partitionEqualLoop fuel l i j a).1 a) ∧
      (∀ m, (partitionEqualLoop fuel l i j a).2 ≤ m → m < b →
        K (partitionEqualLoop fuel l i j a).1 a < K (partitionEqualLoop fuel l i j a).1 m) := by
  induction fuel generalizing l i j with
  | zero =>
    unfold partitionEqualLoop
    obtain ⟨h1, h2, h3, h4, h5, h6⟩ := h
    exact ⟨Frame.refl _ _ _, h1, by omega, h5, fun m hm1 hm2 => h6 m (by omega) hm2⟩
  | succ fuel ih =>
    unfold partitionEqualLoop
    simp only []
    obtain ⟨h1, h2, h3, h4, h5, h6⟩ := h
    obtain ⟨u1, u2, u3, u4⟩ := scanUpEq_spec (j + 1 - i) l i j a (by omega) h2
    generalize scanUpEq (j + 1 - i) l i j a = i1 at u1 u2 u3 u4 ⊢
    obtain ⟨d1, d2, d3, d4⟩ := scanDownEq_spec l i1 a j u2 (by omega)
    generalize scanDownEq l i1 a j = j1 at d1 d2 d3 d4 ⊢
    by_cases hc : i1 > j1
    · rw [if_pos hc]
      refine ⟨Frame.refl _ _ _, by omega, by omega, ?_, ?_⟩
      · intro m hm1 hm2
        by_cases hmi : m < i
        · exact h5 m hm1 hmi
        · exact u3 m (by omega) hm2
      · intro m hm1 hm2
        by_cases hmj : m ≤ j
        · exact d3 m (by omega) hmj
        · exact h6 m (by omega) hm2
    · rw [if_neg hc]
      have hu := u4 (by omega)
      have hd := d4 (by omega)
      have hlt : i1 < j1 := by
        by_contra hc'
        have : i1 = j1 := by omega
        subst this
        omega
      have hil : i1 < l.length := by omega
      have hjl : j1 < l.length := by omega
      have eA : K (Swap l i1 j1) i1 = K l j1 := K_Swap_left l _ _ hil hjl
      have eB : K (Swap l i1 j1) j1 = K l i1 := K_Swap_right l _ _ hil hjl
      have eC : ∀ m, m ≠ i1 → m ≠ j1 → K (Swap l i1 j1) m = K l m :=
        fun m => K_Swap_ne l _ _ m hil hjl
      have hfr : Frame (a + 1) b l (Swap l i1 j1) :=
        Frame.swap l _ _ (by omega) (by omega) (by omega) (by omega) h4
      have := ih (Swap l i1 j1) (i1 + 1) (j1 - 1) (by omega)
        ⟨by omega, by omega, by omega, by rw [Swap_length]; exact h4,
          (by
            intro m hm1 hm2
            rw [eC a (by omega) (by omega)]
            by_cases hmi : m = i1
            · subst hmi; rw [eA]; exact hd
            · rw [eC m hmi (by omega)]
              by_cases hmi' : m < i
              · exact h5 m hm1 hmi'
              · exact u3 m (by omega) (by omega)),
          (by
            intro m hm1 hm2
            rw [eC a (by omega) (by omega)]
            by_cases hmj : m = j1
            · subst hmj; rw [eB]; exact hu
            · rw [eC m (by omega) hmj]
              by_cases hmj' : m ≤ j
              · exact d3 m (by omega) hmj'
              · exact h6 m (by omega) hm2)⟩
      exact ⟨hfr.trans this.1, this.2⟩

/-- `partitionEqual_func` splits `[a, b)` at the returned index: keys that do not exceed the
pivot key before it, greater keys from it on. -/
theorem partitionEqual_spec (l : List AdItem) (a b pivot : Nat) (ha : a ≤ pivot)
    (hp : pivot < b) (hb : b ≤ l.length) :
    Frame a b l (partitionEqual_func l a b pivot).1 ∧
      a < (partitionEqual_func l a b pivot).2 ∧ (partitionEqual_func l a b pivot).2 ≤ b ∧
      (∀ m, a ≤ m → m < (partitionEqual_func l a b pivot).2 →
        K (partitionEqual_func l a b pivot).1 m ≤ K l pivot) ∧
      (∀ m, (partitionEqual_func l a b pivot).2 ≤ m → m < b →
        K l pivot < K (partitionEqual_func l a b pivot).1 m) := by
  have hal : a < l.length := by omega
  have hpl : pivot < l.length := by omega
  have hf0 : Frame a b l (Swap l a pivot) :=
    Frame.swap l _ _ (le_refl _) (by omega) ha hp hb
  have e0 : K (Swap l a pivot) a = K l pivot := K_Swap_left l _ _ hal hpl
  have hinv : PartInvEq (Swap l a pivot) a b (a + 1) (b - 1) :=
    ⟨by omega, by omega, by omega, by rw [Swap_length]; exact hb,
      fun m h1 h2 => by omega, fun m h1 h2 => by omega⟩
  obtain ⟨t1, t2, t3, t4, t5⟩ :=
    partitionEqualLoop_spec (b - a) (Swap l a pivot) a b (a + 1) (b - 1) (by omega) hinv
  unfold partitionEqual_func
  have e1 : K (partitionEqualLoop (b - a) (Swap l a pivot) (a + 1) (b - 1) a).1 a =
      K l pivot := by
    rw [t1.out a (Or.inl (by omega)), e0]
  refine ⟨hf0.trans (t1.mono (by omega) (le_refl _)), t2, t3, ?_, ?_⟩
  · intro m hm1 hm2
    by_cases hma : m = a
    · subst hma; rw [e1]
    · rw [← e1]; exact t4 m (by omega) hm2
  · intro m hm1 hm2
    rw [← e1]; exact t5 m hm1 hm2

/-! ### Pivot choice and pattern handling -/

theorem reverseLoop_frame (fuel : Nat) (l : List AdItem) (a b i j : Nat)
    (hi : a ≤ i) (hj : j < b) (hb : b ≤ l.length) :
    Frame a b l (reverseLoop fuel l i j) := by
  induction fuel generalizing l i j with
  | zero => exact Frame.refl _ _ _
  | succ fuel ih =>
    unfold reverseLoop
    by_cases hc : i < j
    · rw [if_pos hc]
      exact (Frame.swap l i j hi (by omega) (by omega) hj hb).trans
        (ih _ _ _ (by omega) (by omega) (by rw [Swap_length]; exact hb))
    · rw [if_neg hc]; exact Frame.refl _ _ _

theorem reverseRange_frame (l : List AdItem) (a b : Nat) (hab : a < b) (hb : b ≤ l.length) :
    Frame a b l (reverseRange_func l a b) :=
  reverseLoop_frame _ l a b a (b - 1) (le_refl _) (by omega) hb

theorem bitsLenAux_le (fuel n : Nat) (h1 : 1 ≤ n) (h2 : n ≤ fuel) :
    2 ^ bitsLenAux fuel n ≤ 2 * n := by
  induction fuel generalizing n with
  | zero => omega
  | succ fuel ih =>
    unfold bitsLenAux
    rw [if_neg (by omega)]
    by_cases h : n / 2 = 0
    · rw [h]
      have : bitsLenAux fuel 0 = 0 := by cases fuel <;> simp [bitsLenAux]
      rw [this]
      omega
    · have := ih (n / 2) (by omega) (by omega)
      rw [pow_add]
      omega

theorem breakStep_frame (l : List AdItem) (a b length idx i random : Nat)
    (hlen : length = b - a) (h1 : 1 ≤ length) (h2 : a ≤ idx + i) (h3 : idx + i < b)
    (hb : b ≤ l.length) : Frame a b l (breakStep l a length idx i random).1 := by
  unfold breakStep
  simp only []
  have hpow := bitsLenAux_le length length h1 (le_refl _)
  have hand : xorshiftNext random &&& (2 ^ bitsLen length - 1) ≤ 2 ^ bitsLen length - 1 :=
    Nat.and_le_right
  unfold bitsLen at hand ⊢
  generalize xorshiftNext random &&& (2 ^ bitsLenAux length length - 1) = other at hand ⊢
  have hpos : 0 < 2 ^ bitsLenAux length length := Nat.two_pow_pos _
  apply Frame.swap l _ _ h2 h3 (by omega) _ hb
  split_ifs <;> omega

theorem breakPatterns_frame (l : List AdItem) (a b : Nat) (hb : b ≤ l.length) :
    Frame a b l (breakPatterns_func l a b) := by
  unfold breakPatterns_func
  simp only []
  by_cases h : b - a ≥ 8
  · rw [if_pos h]
    have s0 := breakStep_frame l a b (b - a) (a + (b - a) / 4 * 2 - 1) 0 (b - a) rfl
      (by omega) (by omega) (by omega) hb
    have s1 := breakStep_frame _ a b (b - a) (a + (b - a) / 4 * 2 - 1) 1
      (breakStep l a (b - a) (a + (b - a) / 4 * 2 - 1) 0 (b - a)).2 rfl
      (by omega) (by omega) (by omega) (by rw [s0.length]; exact hb)
    have s2 := breakStep_frame _ a b (b - a) (a + (b - a) / 4 * 2 - 1) 2
      (breakStep (breakStep l a (b - a) (a + (b - a) / 4 * 2 - 1) 0 (b - a)).1 a (b - a)
        (a + (b - a) / 4 * 2 - 1) 1
        (breakStep l a (b - a) (a + (b - a) / 4 * 2 - 1) 0 (b - a)).2).2 rfl
      (by omega) (by omega) (by omega) (by rw [s1.length, s0.length]; exact hb)
    exact s0.trans (s1.trans s2)
  · rw [if_neg h]; exact Frame.refl _ _ _

theorem median_func_mem (l : List AdItem) (a b c swaps : Nat) :
    (median_func l a b c swaps).1 = a ∨ (median_func l a b c swaps).1 = b ∨
      (median_func l a b c swaps).1 = c := by
  unfold median_func order2_func
  simp only []
  split_ifs <;> simp

theorem choosePivot_range (l : List AdItem) (a b : Nat) (h : 8 ≤ b - a) :
    a ≤ (choosePivot_func l a b).1 ∧ (choosePivot_func l a b).1 < b := by
  unfold choosePivot_func
  simp only []
  rw [if_pos h]
  have hm : ∀ x y z s, (a ≤ x ∧ x < b) → (a ≤ y ∧ y < b) → (a ≤ z ∧ z < b) →
      a ≤ (median_func l x y z s).1 ∧ (median_func l x y z s).1 < b := by
    intro x y z s hx hy hz
    rcases median_func_mem l x y z s with e | e | e <;> rw [e] <;> assumption
  by_cases h50 : b - a ≥ 50
  · simp only [if_pos h50]
    unfold medianAdjacent_func
    split_ifs <;> (apply hm <;> apply hm <;> omega)
  · simp only [if_neg h50]
    split_ifs <;> (apply hm <;> omega)

/-! ### Partial insertion sort -/

theorem Frame.lowerBound {a b : Nat} {l l' : List AdItem} (h : Frame a b l l')
    (hl : LowerBound l a b) : LowerBound l' a b := by
  intro ha m hm1 hm2
  rw [h.out (a - 1) (Or.inl (by omega))]
  exact h.lower _ (hl ha) m hm1 hm2

theorem scanSorted_spec (fuel : Nat) (l : List AdItem) (a i b : Nat)
    (hf : b ≤ i + fuel) (hai : a < i) (hib : i ≤ b) (hs : AdjSorted l a i) :
    i ≤ scanSorted fuel l i b ∧ scanSorted fuel l i b ≤ b ∧
      AdjSorted l a (scanSorted fuel l i b) ∧
      (scanSorted fuel l i b < b →
        K l (scanSorted fuel l i b) < K l (scanSorted fuel l i b - 1)) := by
  induction fuel generalizing i with
  | zero =>
    unfold scanSorted
    exact ⟨le_refl _, hib, hs, fun h => by omega⟩
  | succ fuel ih =>
    unfold scanSorted
    by_cases hc : (decide (i < b) && !Less l i (i - 1)) = true
    · rw [if_pos hc]
      simp only [Bool.and_eq_true, decide_eq_true_eq, Bool.not_eq_true', Less_false_iff] at hc
      obtain ⟨h1, h2, h3, h4⟩ := ih (i + 1) (by omega) (by omega) (by omega) (by
        intro m hm1 hm2
        by_cases hmi : m + 1 = i
        · have := hc.2
          rw [← hmi] at this
          rw [show m + 1 - 1 = m by omega] at this
          exact this
        · exact hs m hm1 (by omega))
      exact ⟨by omega, h2, h3, h4⟩
    · rw [if_neg hc]
      simp only [Bool.and_eq_true, decide_eq_true_eq, Bool.not_eq_true', Less_false_iff,
        not_and] at hc
      refine ⟨le_refl _, hib, hs, fun h => ?_⟩
      have := hc h
      omega

theorem shiftLeft_eq (a j : Nat) (l : List AdItem) (hlen : j < l.length) (ha : a ≤ j)
    (hLB : 0 < a → ∀ m, a ≤ m → m ≤ j → K l (a - 1) ≤ K l m) :
    shiftLeft j l = insertionInner a j l := by
  induction j generalizing l with
  | zero => rfl
  | succ j ih =>
    unfold shiftLeft insertionInner
    by_cases hc : Less l (j + 1) j = true
    · by_cases haj : a < j + 1
      · have h1 : (!Less l (j + 1) j) = false := by rw [hc]; rfl
        have h2 : (decide (a < j + 1) && Less l (j + 1) j) = true := by simp [haj, hc]
        rw [h1, h2]
        simp only [Bool.false_eq_true, if_false, if_true]
        have hjl : j < l.length := by omega
        apply ih _ (by rw [Swap_length]; omega) (by omega)
        intro h0 m hm1 hm2
        rw [K_Swap_ne l (j + 1) j (a - 1) hlen hjl (by omega) (by omega)]
        rw [K_Swap l (j + 1) j m hlen hjl]
        split_ifs
        · exact hLB h0 (j + 1) (by omega) (le_refl _)
        · exact hLB h0 j (by omega) (by omega)
        · exact hLB h0 m hm1 (by omega)
      · have haeq : a = j + 1 := by omega
        rw [Less_iff] at hc
        have := hLB (by omega) (j + 1) (by omega) (le_refl _)
        rw [haeq, show j + 1 - 1 = j by omega] at this
        omega
    · have h1 : (!Less l (j + 1) j) = true := by simp [hc]
      have h2 : (decide (a < j + 1) && Less l (j + 1) j) = false := by simp [hc]
      rw [h1, h2]
      simp

theorem shiftRight_frame (fuel : Nat) (l : List AdItem) (lo j b : Nat) (hlo : lo + 1 ≤ j)
    (hb : b ≤ l.length) : Frame lo b l (shiftRight fuel l j b) := by
  induction fuel generalizing l j with
  | zero => exact Frame.refl _ _ _
  | succ fuel ih =>
    unfold shiftRight
    by_cases hc : j < b
    · rw [if_pos hc]
      by_cases hc2 : (!Less l j (j - 1)) = true
      · rw [if_pos hc2]; exact Frame.refl _ _ _
      · rw [if_neg hc2]
        exact (Frame.swap l j (j - 1) (by omega) hc (by omega) (by omega) hb).trans
          (ih _ _ (by omega) (by rw [Swap_length]; exact hb))
    · rw [if_neg hc]; exact Frame.refl _ _ _

theorem partialInsertionLoop_spec (steps : Nat) (l : List AdItem) (i a b : Nat)
    (hai : a < i) (hib : i ≤ b) (hb : b ≤ l.length) (hs : AdjSorted l a i)
    (hLB : LowerBound l a b) :
    Frame a b l (partialInsertionLoop steps l i a b).1 ∧
      ((partialInsertionLoop steps l i a b).2 = true →
        SortedRange (partialInsertionLoop steps l i a b).1 a b) := by
  induction steps generalizing l i with
  | zero =>
    unfold partialInsertionLoop
    exact ⟨Frame.refl _ _ _, fun h => by simp at h⟩
  | succ steps ih =>
    unfold partialInsertionLoop
    simp only []
    obtain ⟨s1, s2, s3, s4⟩ := scanSorted_spec (b - i) l a i b (by omega) hai hib hs
    generalize scanSorted (b - i) l i b = i1 at s1 s2 s3 s4 ⊢
    by_cases h1 : i1 = b
    · rw [if_pos h1]
      exact ⟨Frame.refl _ _ _, fun _ => by rw [h1] at s3; exact s3.sorted⟩
    · rw [if_neg h1]
      by_cases h2 : b - a < 50
      · rw [if_pos h2]
        exact ⟨Frame.refl _ _ _, fun h => by simp at h⟩
      · rw [if_neg h2]
        have hil : i1 < l.length := by omega
        have hil' : i1 - 1 < l.length := by omega
        have f1 : Frame a b l (Swap l i1 (i1 - 1)) :=
          Frame.swap l _ _ (by omega) (by omega) (by omega) (by omega) hb
        have eC : ∀ m, m ≠ i1 → m ≠ i1 - 1 → K (Swap l i1 (i1 - 1)) m = K l m :=
          fun m => K_Swap_ne l _ _ m hil hil'
        have hLB1 : LowerBound (Swap l i1 (i1 - 1)) a b := f1.lowerBound hLB
        -- the shift to the left
        have hleft : Frame a i1 (Swap l i1 (i1 - 1))
              (if i1 - a ≥ 2 then shiftLeft (i1 - 1) (Swap l i1 (i1 - 1))
                else Swap l i1 (i1 - 1)) ∧
            AdjSorted (if i1 - a ≥ 2 then shiftLeft (i1 - 1) (Swap l i1 (i1 - 1))
                else Swap l i1 (i1 - 1)) a i1 := by
          by_cases h3 : i1 - a ≥ 2
          · rw [if_pos h3]
            rw [shiftLeft_eq a (i1 - 1) _ (by rw [Swap_length]; omega) (by omega)
              (fun h0 m hm1 hm2 => hLB1 h0 m hm1 (by omega))]
            exact insertionInner_spec a i1 (i1 - 1) _ (by omega) (by omega)
              (by rw [Swap_length]; omega)
              (by
                intro m hm1 hm2 hm3
                rw [eC m (by omega) (by omega), eC (m + 1) (by omega) (by omega)]
                exact s3 m hm1 (by omega))
              (fun _ h => by omega)
          · rw [if_neg h3]
            exact ⟨Frame.refl _ _ _, fun m hm1 hm2 => by omega⟩
        generalize (if i1 - a ≥ 2 then shiftLeft (i1 - 1) (Swap l i1 (i1 - 1))
                else Swap l i1 (i1 - 1)) = l2 at hleft ⊢
        obtain ⟨f2, hs2⟩ := hleft
        have hl2 : l2.length = l.length := by rw [f2.length, Swap_length]
        have hright : Frame i1 b l2
            (if b - i1 ≥ 2 then shiftRight (b - (i1 + 1)) l2 (i1 + 1) b else l2) := by
          by_cases h3 : b - i1 ≥ 2
          · rw [if_pos h3]
            exact shiftRight_frame _ l2 i1 (i1 + 1) b (le_refl _) (by omega)
          · rw [if_neg h3]; exact Frame.refl _ _ _
        generalize (if b - i1 ≥ 2 then shiftRight (b - (i1 + 1)) l2 (i1 + 1) b else l2) = l3
          at hright ⊢
        have f13 : Frame a b l l3 :=
          f1.trans ((f2.mono (le_refl _) (by omega)).trans (hright.mono (by omega) (le_refl _)))
        have := ih l3 i1 (by omega) (by omega) (by rw [f13.length]; exact hb)
          (by
            intro m hm1 hm2
            rw [hright.out m (Or.inl (by omega)), hright.out (m + 1) (Or.inl (by omega))]
            exact hs2 m hm1 hm2)
          (f13.lowerBound hLB)
        exact ⟨f13.trans this.1, this.2⟩

theorem partialInsertionSort_spec (l : List AdItem) (a b : Nat) (hab : a < b)
    (hb : b ≤ l.length) (hLB : LowerBound l a b) :
    Frame a b l (partialInsertionSort_func l a b).1 ∧
      ((partialInsertionSort_func l a b).2 = true →
        SortedRange (partialInsertionSort_func l a b).1 a b) :=
  partialInsertionLoop_spec 5 l (a + 1) a b (by omega) (by omega) hb
    (fun m hm1 hm2 => by omega) hLB

/-! ### The quicksort driver -/

/-- Two sorted halves around a pivot at `mid` make a sorted range. -/
theorem sorted_join (r : List AdItem) (a mid b : Nat)
    (h1 : ∀ m, a ≤ m → m < mid → K r m ≤ K r mid)
    (h2 : ∀ m, mid < m → m < b → K r mid ≤ K r m)
    (s1 : SortedRange r a mid) (s2 : SortedRange r (mid + 1) b) : SortedRange r a b := by
  intro i j hi hij hj
  by_cases c1 : j < mid
  · exact s1 i j hi hij c1
  · by_cases c2 : mid < i
    · exact s2 i j (by omega) hij hj
    · by_cases c3 : i = mid
      · by_cases c4 : j = mid
        · rw [c3, c4]
        · rw [c3]; exact h2 j (by omega) hj
      · by_cases c4 : j = mid
        · rw [c4]; exact h1 i hi (by omega)
        · exact le_trans (h1 i hi (by omega)) (h2 j (by omega) hj)

theorem pdqsort_spec (fuel : Nat) (l : List AdItem) (a b limit : Nat) (wb wp : Bool)
    (hab : a ≤ b) (hb : b ≤ l.length) (hf : b - a < fuel) (hLB : LowerBound l a b) :
    Frame a b l (pdqsort_func fuel l a b limit wb wp) ∧
      SortedRange (pdqsort_func fuel l a b limit wb wp) a b := by
  induction fuel generalizing l a b limit wb wp with
  | zero => omega
  | succ fuel ih =>
    unfold pdqsort_func
    simp only []
    by_cases h12 : b - a ≤ 12
    · rw [if_pos h12]; exact insertionSort_spec l a b hb
    · rw [if_neg h12]
      by_cases hl0 : limit = 0
      · rw [if_pos hl0]; exact heapSort_spec l a b hab hb
      · rw [if_neg hl0]
        have hl1 : Frame a b l (if (!wb) = true then breakPatterns_func l a b else l) := by
          split_ifs
          · exact breakPatterns_frame l a b hb
          · exact Frame.refl _ _ _
        generalize (if (!wb) = true then breakPatterns_func l a b else l) = l1 at hl1 ⊢
        generalize (if (!wb) = true then limit - 1 else limit) = limit1
        have hph := choosePivot_range l1 a b (by omega)
        generalize choosePivot_func l1 a b = ph at hph ⊢
        have hl2 : Frame a b l1
            (if ph.2 = .decreasingHint then reverseRange_func l1 a b else l1) := by
          split_ifs
          · exact reverseRange_frame l1 a b (by omega) (by rw [hl1.length]; exact hb)
          · exact Frame.refl _ _ _
        generalize (if ph.2 = .decreasingHint then reverseRange_func l1 a b else l1) = l2
          at hl2 ⊢
        have hpv : a ≤ (if ph.2 = .decreasingHint then b - 1 - (ph.1 - a) else ph.1) ∧
            (if ph.2 = .decreasingHint then b - 1 - (ph.1 - a) else ph.1) < b := by
          split_ifs <;> omega
        generalize (if ph.2 = .decreasingHint then b - 1 - (ph.1 - a) else ph.1) = pivot
          at hpv ⊢
        generalize (if ph.2 = .decreasingHint then sortedHint.increasingHint else ph.2) = hint
        have h02 : Frame a b l l2 := hl1.trans hl2
        have hpi : Frame a b l2
            (if (wb && wp && decide (hint = .increasingHint)) = true
              then partialInsertionSort_func l2 a b else (l2, false)).1 ∧
            ((if (wb && wp && decide (hint = .increasingHint)) = true
              then partialInsertionSort_func l2 a b else (l2, false)).2 = true →
              SortedRange (if (wb && wp && decide (hint = .increasingHint)) = true
                then partialInsertionSort_func l2 a b else (l2, false)).1 a b) := by
          split_ifs
          · exact partialInsertionSort_spec l2 a b (by omega) (by rw [h02.length]; exact hb)
              (h02.lowerBound hLB)
          · exact ⟨Frame.refl _ _ _, fun h => by simp at h⟩
        generalize (if (wb && wp && decide (hint = .increasingHint)) = true
              then partialInsertionSort_func l2 a b else (l2, false)) = pi at hpi ⊢
        obtain ⟨hpi1, hpi2⟩ := hpi
        have h0p : Frame a b l pi.1 := h02.trans hpi1
        have hlenp : pi.1.length = l.length := h0p.length
        have hLBp : LowerBound pi.1 a b := h0p.lowerBound hLB
        by_cases hdone : pi.2 = true
        · rw [if_pos hdone]; exact ⟨h0p, hpi2 hdone⟩
        · rw [if_neg hdone]
          by_cases heq : (decide (0 < a) && !Less pi.1 (a - 1) pivot) = true
          · rw [if_pos heq]
            simp only [Bool.and_eq_true, decide_eq_true_eq, Bool.not_eq_true',
              Less_false_iff] at heq
            obtain ⟨e1, e2, e3, e4, e5⟩ :=
              partitionEqual_spec pi.1 a b pivot hpv.1 hpv.2 (by rw [hlenp]; exact hb)
            have hmin : ∀ m, a ≤ m → m < b →
                K pi.1 pivot ≤ K (partitionEqual_func pi.1 a b pivot).1 m :=
              e1.lower _ (fun m hm1 hm2 => le_trans heq.2 (hLBp heq.1 m hm1 hm2))
            generalize partitionEqual_func pi.1 a b pivot = pe at e1 e2 e3 e4 e5 hmin ⊢
            obtain ⟨r1, r2⟩ := ih pe.1 pe.2 b limit1 wb wp e3
              (by rw [e1.length, hlenp]; exact hb) (by omega)
              (by
                intro _ m hm1 hm2
                have := e4 (pe.2 - 1) (by omega) (by omega)
                have := e5 m hm1 hm2
                omega)
            refine ⟨h0p.trans (e1.trans (r1.mono (by omega) (le_refl _))), ?_⟩
            have hup : ∀ m, pe.2 ≤ m → m < b →
                K pi.1 pivot ≤ K (pdqsort_func fuel pe.1 pe.2 b limit1 wb wp) m :=
              r1.lower _ (fun m hm1 hm2 => le_of_lt (e5 m hm1 hm2))
            intro i j hi hij hj
            by_cases c1 : pe.2 ≤ i
            · exact r2 i j c1 hij hj
            · rw [r1.out i (Or.inl (by omega))]
              have hi1 := e4 i hi (by omega)
              by_cases c2 : pe.2 ≤ j
              · exact le_trans hi1 (hup j c2 hj)
              · rw [r1.out j (Or.inl (by omega))]
                have := hmin j (by omega) hj
                omega
          · rw [if_neg heq]
            obtain ⟨t1, t2, t3, t4, t5⟩ :=
              partition_spec pi.1 a b pivot hpv.1 hpv.2 (by rw [hlenp]; exact hb)
            generalize partition_func pi.1 a b pivot = pt at t1 t2 t3 t4 t5 ⊢
            have hlent : pt.1.length = l.length := by rw [t1.length, hlenp]
            have hLBt : LowerBound pt.1 a b := t1.lowerBound hLBp
            by_cases hside : pt.2.1 - a < b - pt.2.1
            · rw [if_pos hside]
              obtain ⟨r1, r2⟩ := ih pt.1 a pt.2.1 limit1 true true t2
                (by rw [hlent]; omega) (by omega)
                (fun h0 m hm1 hm2 => hLBt h0 m hm1 (by omega))
              generalize pdqsort_func fuel pt.1 a pt.2.1 limit1 true true = q1 at r1 r2 ⊢
              have em : K q1 pt.2.1 = K pt.1 pt.2.1 := r1.out _ (Or.inr (le_refl _))
              obtain ⟨u1, u2⟩ := ih q1 (pt.2.1 + 1) b limit1
                (decide (pt.2.1 - a ≥ (b - a) / 8)) pt.2.2 (by omega)
                (by rw [r1.length, hlent]; exact hb) (by omega)
                (by
                  intro _ m hm1 hm2
                  rw [show pt.2.1 + 1 - 1 = pt.2.1 by omega, em,
                    r1.out m (Or.inr (by omega))]
                  exact t5 m (by omega) hm2)
              generalize pdqsort_func fuel q1 (pt.2.1 + 1) b limit1
                (decide (pt.2.1 - a ≥ (b - a) / 8)) pt.2.2 = q2 at u1 u2 ⊢
              have em2 : K q2 pt.2.1 = K pt.1 pt.2.1 := by
                rw [u1.out _ (Or.inl (by omega)), em]
              refine ⟨h0p.trans (t1.trans ((r1.mono (le_refl _) (by omega)).trans
                (u1.mono (by omega) (le_refl _)))), ?_⟩
              apply sorted_join q2 a pt.2.1 b
              · intro m hm1 hm2
                rw [em2, u1.out m (Or.inl (by omega))]
                exact r1.upper _ (fun k hk1 hk2 => le_of_lt (t4 k hk1 hk2)) m hm1 hm2
              · intro m hm1 hm2
                rw [em2]
                exact u1.lower _ (fun k hk1 hk2 => by
                  rw [r1.out k (Or.inr (by omega))]; exact t5 k (by omega) hk2) m (by omega) hm2
              · intro i j hi hij hj
                rw [u1.out i (Or.inl (by omega)), u1.out j (Or.inl (by omega))]
                exact r2 i j hi hij hj
              · exact u2
            · rw [if_neg hside]
              obtain ⟨r1, r2⟩ := ih pt.1 (pt.2.1 + 1) b limit1 true true (by omega)
                (by rw [hlent]; exact hb) (by omega)
                (by
                  intro _ m hm1 hm2
                  rw [show pt.2.1 + 1 - 1 = pt.2.1 by omega]
                  exact t5 m (by omega) hm2)
              generalize pdqsort_func fuel pt.1 (pt.2.1 + 1) b limit1 true true = q1
                at r1 r2 ⊢
              have em : K q1 pt.2.1 = K pt.1 pt.2.1 := r1.out _ (Or.inl (by omega))
              obtain ⟨u1, u2⟩ := ih q1 a pt.2.1 limit1
                (decide (b - pt.2.1 ≥ (b - a) / 8)) pt.2.2 t2
                (by rw [r1.length, hlent]; omega) (by omega)
                (by
                  intro h0 m hm1 hm2
                  rw [r1.out (a - 1) (Or.inl (by omega)), r1.out m (Or.inl (by omega))]
                  exact hLBt h0 m hm1 (by omega))
              generalize pdqsort_func fuel q1 a pt.2.1 limit1
                (decide (b - pt.2.1 ≥ (b - a) / 8)) pt.2.2 = q2 at u1 u2 ⊢
              have em2 : K q2 pt.2.1 = K pt.1 pt.2.1 := by
                rw [u1.out _ (Or.inr (le_refl _)), em]
              refine ⟨h0p.trans (t1.trans ((r1.mono (by omega) (le_refl _)).trans
                (u1.mono (le_refl _) (by omega)))), ?_⟩
              apply sorted_join q2 a pt.2.1 b
              · intro m hm1 hm2
                rw [em2]
                exact u1.upper _ (fun k hk1 hk2 => by
                  rw [r1.out k (Or.inl (by omega))]; exact le_of_lt (t4 k hk1 hk2)) m hm1 hm2
              · intro m hm1 hm2
                rw [em2, u1.out m (Or.inr (by omega))]
                exact r1.lower _ (fun k hk1 hk2 => t5 k (by omega) hk2) m (by omega) hm2
              · exact u2
              · intro i j hi hij hj
                rw [u1.out i (Or.inr (by omega)), u1.out j (Or.inr (by omega))]
                exact r2 i j hi hij hj

/-- `sort.Slice` rearranges the whole slice into ascending key order. -/
theorem sortSlice_spec (l : List AdItem) :
    Frame 0 l.length l (sortSlice l) ∧ SortedRange (sortSlice l) 0 l.length :=
  pdqsort_spec (l.length + 1) l 0 l.length (bitsLen l.length) true true (Nat.zero_le _)
    (le_refl _) (by omega) (fun h => by omega)

theorem sortSlice_perm (l : List AdItem) : (sortSlice l).Perm l := (sortSlice_spec l).1.perm

theorem sortSlice_sorted (l : List AdItem) :
    (sortSlice l).Pairwise (fun x y => x.EndAt ≤ y.EndAt) := by
  rw [List.pairwise_iff_getElem]
  intro i j hi hj hij
  have hlen : (sortSlice l).length = l.length := (sortSlice_perm l).length_eq
  have := (sortSlice_spec l).2 i j (Nat.zero_le _) (by omega) (by omega)
  unfold K at this
  rw [List.getD_eq_getElem _ _ hi, List.getD_eq_getElem _ _ hj] at this
  exact this

/-! ### Stability of the insertion sort -/

theorem Swap_cons_succ (x : AdItem) (t : List AdItem) (i j : Nat) :
    Swap (x :: t) (i + 1) (j + 1) = x :: Swap t i j := by
  simp [Swap]

theorem filter_Swap_adjacent (p : AdItem → Bool) (l : List AdItem) (j : Nat)
    (h : j + 1 < l.length)
    (hp : (p (l.getD j default) && p (l.getD (j + 1) default)) = false) :
    (Swap l (j + 1) j).filter p = l.filter p := by
  induction l generalizing j with
  | nil => simp at h
  | cons x t ih =>
    cases j with
    | zero =>
      cases t with
      | nil => simp at h
      | cons y t' =>
        simp only [List.getD_cons_zero, List.getD_cons_succ, zero_add] at hp
        simp only [Swap, zero_add, List.getD_cons_zero, List.getD_cons_succ, List.set_cons_succ,
          List.set_cons_zero, List.filter_cons]
        cases hx : p x <;> cases hy : p y <;> simp_all
    | succ j =>
      simp only [List.getD_cons_succ] at hp
      rw [Swap_cons_succ, List.filter_cons, List.filter_cons,
        ih j (by simpa using h) hp]

theorem insertionInner_stable (t : Time) (a j : Nat) (l : List AdItem) (h : j < l.length) :
    withEndAt t (insertionInner a j l) = withEndAt t l := by
  induction j generalizing l with
  | zero => rfl
  | succ j ih =>
    unfold insertionInner
    by_cases hc : (decide (a < j + 1) && Less l (j + 1) j) = true
    · rw [if_pos hc]
      simp only [Bool.and_eq_true, decide_eq_true_eq, Less_iff] at hc
      rw [ih _ (by rw [Swap_length]; omega)]
      unfold withEndAt
      apply filter_Swap_adjacent _ l j h
      have hlt : (l.getD (j + 1) default).EndAt < (l.getD j default).EndAt := hc.2
      show (decide ((l.getD j default).EndAt = t) &&
        decide ((l.getD (j + 1) default).EndAt = t)) = false
      by_cases h1 : (l.getD j default).EndAt = t
      · have h2 : ¬ (l.getD (j + 1) default).EndAt = t := by
          intro h2
          rw [h1, h2] at hlt
          exact lt_irrefl _ hlt
        rw [decide_eq_false h2, Bool.and_false]
      · rw [decide_eq_false h1, Bool.false_and]
    · rw [if_neg hc]

theorem insertionOuter_stable (t : Time) (a n i : Nat) (l : List AdItem)
    (h : i + n ≤ l.length) :
    withEndAt t (insertionOuter a n i l) = withEndAt t l := by
  induction n generalizing i l with
  | zero => rfl
  | succ n ih =>
    unfold insertionOuter
    have hlen : (insertionInner a i l).length = l.length :=
      (by
        have : ∀ j (l : List AdItem), (insertionInner a j l).length = l.length := by
          intro j
          induction j with
          | zero => intro l; rfl
          | succ j ihj =>
            intro l
            unfold insertionInner
            split_ifs
            · rw [ihj, Swap_length]
            · rfl
        exact this i l)
    rw [ih (i + 1) _ (by rw [hlen]; omega), insertionInner_stable t a i l (by omega)]

/-- On a slice of at most 12 elements `sort.Slice` is the insertion sort, which keeps the
order of the items of equal end time. -/
theorem sortSlice_stable_short (t : Time) (l : List AdItem) (h : l.length ≤ 12) :
    withEndAt t (sortSlice l) = withEndAt t l := by
  unfold sortSlice pdqsort_func
  simp only [Nat.sub_zero]
  rw [if_pos h]
  unfold insertionSort_func
  by_cases h1 : 1 ≤ l.length
  · exact insertionOuter_stable t 0 _ _ l (by omega)
  · rw [show l.length - (0 + 1) = 0 by omega]
    rfl

/-- C5 (counterexample): on thirteen items, twelve of which have the same end time, the sort
step moves "a6" in front of "a1" ... "a5": items with equal endAt do not keep their
original relative order. -/
theorem getAds_sort_not_stable :
    sortSlice thirteenItems =
      [⟨"a6", 1⟩, ⟨"a1", 1⟩, ⟨"a2", 1⟩, ⟨"a3", 1⟩, ⟨"a4", 1⟩, ⟨"a5", 1⟩, ⟨"a7", 1⟩, ⟨"a8", 1⟩,
        ⟨"a9", 1⟩, ⟨"a10", 1⟩, ⟨"a11", 1⟩, ⟨"a12", 1⟩, ⟨"a0", 2⟩] ∧
    withEndAt 1 (sortSlice thirteenItems) ≠ withEndAt 1 thirteenItems := by
  refine ⟨by decide, by decide⟩

/-- The sort step on fourteen items, where the scattering of `breakPatterns_func` shows: the
order is the one that `sort.Slice` gives on this input. -/
theorem sortSlice_fourteenItems :
    sortSlice fourteenItems =
      [⟨"a6", 1⟩, ⟨"a12", 1⟩, ⟨"a2", 1⟩, ⟨"a3", 1⟩, ⟨"a4", 1⟩, ⟨"a5", 1⟩, ⟨"a8", 1⟩,
        ⟨"a13", 1⟩, ⟨"a1", 1⟩, ⟨"a9", 1⟩, ⟨"a10", 1⟩, ⟨"a11", 1⟩, ⟨"a7", 1⟩, ⟨"a0", 2⟩] := by
  decide

/-- C5 (amended): for every list of projected items, the sort step of getAds yields a
permutation of the list that is ascending by endAt; the items with equal endAt keep their
original relative order when the list has at most 12 items. -/
theorem getAds_sort_step (l : List AdItem) :
    (sortSlice l).Perm l ∧ (sortSlice l).Pairwise (fun x y => x.EndAt ≤ y.EndAt) ∧
      (l.length ≤ 12 → ∀ t, withEndAt t (sortSlice l) = withEndAt t l) :=
  ⟨sortSlice_perm l, sortSlice_sorted l, fun h t => sortSlice_stable_short t l h⟩

/-! ## C11: parameter validation and the storage calls -/

/-- `getClient` only connects and pings. -/
theorem getClient_calls (s : ClientState) (pingErr : Bool) :
    ∀ c ∈ (getClient s pingErr).2.2, c = StorageCall.Connect ∨ c = StorageCall.Ping := by
  unfold getClient connectToMongoDB
  cases s.onceDone <;> cases s.clientErr <;> cases pingErr <;> simp

/-- With a client that is already connected, `getClient` makes no call and returns no
error. -/
theorem getClient_connected (s : ClientState) (pingErr : Bool) (h1 : s.onceDone = true)
    (h2 : s.clientErr = false) : getClient s pingErr = (s, false, []) := by
  unfold getClient
  simp [h1, h2]

/-- With no client yet, or after a failed connection, `getClient` returns the error of the
ping it makes. -/
theorem getClient_connects (s : ClientState) (pingErr : Bool)
    (h : s.onceDone = false ∨ s.clientErr = true) : (getClient s pingErr).2.1 = pingErr := by
  unfold getClient connectToMongoDB
  cases h1 : s.onceDone <;> cases h2 : s.clientErr <;> cases pingErr <;> simp_all

/-- The outcome of `getAdsTraced` is the outcome of `getAds` for the error of `getClient`. -/
theorem getAdsTraced_outcome (s : ClientState) (pingErr : Bool) (st : Storage) (now : Time)
    (q : QueryParams) :
    (getAdsTraced s pingErr st now q).1 =
      getAds (st.withClientErr (getClient s pingErr).2.1) now q := by
  unfold getAdsTraced getAds Storage.withClientErr
  cases (getClient s pingErr).2.1
  · cases buildFilter now q <;> simp
  · simp

/-- The outcome and the inserts of `addAdsTraced` are those of `addAds` for the error of
`getClient`. -/
theorem addAdsTraced_outcome (s : ClientState) (pingErr : Bool) (st : Storage)
    (bound : Option Advertisement) :
    (addAdsTraced s pingErr st bound).1 =
      (addAds (st.withClientErr (getClient s pingErr).2.1) bound).1 ∧
    (addAdsTraced s pingErr st bound).2 = (getClient s pingErr).2.2 ++
      ((addAds (st.withClientErr (getClient s pingErr).2.1) bound).2.map StorageCall.InsertOne) := by
  unfold addAdsTraced addAds Storage.withClientErr
  cases (getClient s pingErr).2.1
  · cases bound with
    | none => simp
    | some newAd =>
      simp only [Bool.false_eq_true, if_false]
      split_ifs <;> simp
  · simp

/-- C11 (counterexample): on the first request, with a backend that does not answer the
ping, a request with the invalid parameter `age=abc` is not answered with 400 "invalid age
parameter": getAds calls `getClient` first, which connects and pings (twice), and the
response is 500 "Failed to connect to database". -/
theorem getAds_validation_after_getClient :
    buildFilter 20 ⟨"abc", "", "", "", "", ""⟩ = .error "invalid age parameter" ∧
    getAdsTraced ⟨false, false⟩ true ⟨false, false, false, none, false, []⟩ 20
        ⟨"abc", "", "", "", "", ""⟩ =
      (.respond StatusInternalServerError (.error "Failed to connect to database"),
        [.Connect, .Ping, .Connect, .Ping]) ∧
    getAds ⟨true, false, false, none, false, []⟩ 20 ⟨"abc", "", "", "", "", ""⟩ =
      .respond StatusInternalServerError (.error "Failed to connect to database") := by
  refine ⟨rfl, rfl, by decide⟩

/-- C11 (amended): in getAds the parameter validation comes after `getClient` and before
`Find`. For a request with an invalid age, gender, country or platform (the filter
construction fails with `msg`), the only storage calls are those of `getClient`, which are
connects and pings and are none when the client is already connected; the response is the
400 error `msg` whenever `getClient` returns no error, whatever `Find`, the cursor and the
catalog would give, and 500 "Failed to connect to database" when `getClient` fails. With
valid parameters and a client, `Find` is the one call after those of `getClient`. In addAds
the malformed-payload check and the missing-field check both come after `getClient` and
before `InsertOne`: when either fails no insert is attempted and, with a client, the answer
is the 400 of that check; otherwise `InsertOne` with the candidate is the one call after
those of `getClient`. -/
theorem getAds_validation_before_find (s : ClientState) (pingErr : Bool) (st : Storage)
    (now : Time) (q : QueryParams) :
    (∀ c ∈ (getClient s pingErr).2.2, c = StorageCall.Connect ∨ c = StorageCall.Ping) ∧
    (s.onceDone = true → s.clientErr = false →
      (getClient s pingErr).2.1 = false ∧ (getClient s pingErr).2.2 = []) ∧
    (∀ msg, buildFilter now q = .error msg →
      (getAdsTraced s pingErr st now q).2 = (getClient s pingErr).2.2 ∧
      ((getClient s pingErr).2.1 = false →
        (getAdsTraced s pingErr st now q).1 = badRequest msg) ∧
      ((getClient s pingErr).2.1 = true →
        (getAdsTraced s pingErr st now q).1 =
          .respond StatusInternalServerError (.error "Failed to connect to database"))) ∧
    (∀ f, buildFilter now q = .ok f → (getClient s pingErr).2.1 = false →
      (getAdsTraced s pingErr st now q).2 = (getClient s pingErr).2.2 ++ [.Find f]) ∧
    ((addAdsTraced s pingErr st none).2 = (getClient s pingErr).2.2 ∧
      ((getClient s pingErr).2.1 = false →
        (addAdsTraced s pingErr st none).1 = badRequest "Failed binding data")) ∧
    (∀ newAd : Advertisement,
      (newAd.Title = "" ∨ newAd.StartAt = 0 ∨ newAd.EndAt = 0 →
        (addAdsTraced s pingErr st (some newAd)).2 = (getClient s pingErr).2.2 ∧
        ((getClient s pingErr).2.1 = false →
          (addAdsTraced s pingErr st (some newAd)).1 = badRequest "Missing required fields")) ∧
      (¬(newAd.Title = "" ∨ newAd.StartAt = 0 ∨ newAd.EndAt = 0) →
        (getClient s pingErr).2.1 = false →
        (addAdsTraced s pingErr st (some newAd)).2 =
          (getClient s pingErr).2.2 ++ [.InsertOne newAd])) := by
  refine ⟨getClient_calls s pingErr, ?_, ?_, ?_, ?_, ?_⟩
  · intro h1 h2
    rw [getClient_connected s pingErr h1 h2]
    exact ⟨rfl, rfl⟩
  · intro msg hmsg
    unfold getAdsTraced badRequest
    cases (getClient s pingErr).2.1 <;> simp [hmsg]
  · intro f hf hc
    unfold getAdsTraced
    simp [hf, hc]
  · unfold addAdsTraced badRequest
    cases (getClient s pingErr).2.1 <;> simp
  · intro newAd
    have hz : (newAd.Title = "" ∨ IsZero newAd.StartAt = true ∨ IsZero newAd.EndAt = true) ↔
        (newAd.Title = "" ∨ newAd.StartAt = 0 ∨ newAd.EndAt = 0) := by simp [IsZero]
    unfold addAdsTraced badRequest
    constructor
    · intro h
      cases (getClient s pingErr).2.1 <;> simp [hz.mpr h]
    · intro h hc
      have h' := fun x => h (hz.mp x)
      simp only [hc, Bool.false_eq_true, if_false, if_neg h']
      split_ifs <;> rfl

/-! ## C12: bounds of the pagination slice -/

/-- The pagination panics exactly when the offset is inside the list and either it is
negative or the limit parses to a value that puts the end index below the offset. -/
theorem paginate_panicked_iff (items : List AdItem) (q : QueryParams) :
    paginate items q = .panicked ↔
      (Atoi q.offset).1 < (items.length : Int) ∧
        ((Atoi q.offset).1 < 0 ∨
          ((Atoi q.limit).2 = none ∧
            wrapInt ((Atoi q.offset).1 + (Atoi q.limit).1) < (Atoi q.offset).1)) := by
  unfold paginate sliceItems
  simp only []
  by_cases h1 : (Atoi q.offset).1 ≥ (items.length : Int)
  · rw [if_pos h1]
    constructor
    · intro h; cases h
    · intro h; omega
  · rw [if_neg h1]
    by_cases h2 : (Atoi q.limit).2 = none
    · rw [if_pos h2]
      by_cases h3 : wrapInt ((Atoi q.offset).1 + (Atoi q.limit).1) > (items.length : Int)
      · rw [if_pos h3]
        split_ifs with h4
        · constructor
          · intro h; cases h
          · intro h; omega
        · constructor
          · intro _; exact ⟨by omega, Or.inl (by omega)⟩
          · intro _; rfl
      · rw [if_neg h3]
        split_ifs with h4
        · constructor
          · intro h; cases h
          · intro h; omega
        · constructor
          · intro _
            refine ⟨by omega, ?_⟩
            by_cases h5 : (Atoi q.offset).1 < 0
            · exact Or.inl h5
            · exact Or.inr ⟨h2, by omega⟩
          · intro _; rfl
    · rw [if_neg h2]
      split_ifs with h4
      · constructor
        · intro h; cases h
        · intro h
          rcases h.2 with h5 | h5
          · omega
          · exact absurd h5.1 h2
      · constructor
        · intro _; exact ⟨by omega, Or.inl (by omega)⟩
        · intro _; rfl

/-- C12 (the code at the failing input): `offset=-1` parses without error to a negative
integer, it is below the number of items, so the handler goes on to the slice expression
with the bounds offset = -1 and endIndex = 2 (limit absent) or endIndex = 0 (`limit=1`); the
bound 0 <= offset fails and the handler panics. -/
theorem getAds_negative_offset_panics :
    Atoi "-1" = (-1, none) ∧ Atoi "" = (0, some .ErrSyntax) ∧ Atoi "1" = (1, none) ∧
    ¬ ((0 : Int) ≤ -1 ∧ (-1 : Int) ≤ 2 ∧ (2 : Int) ≤ 2) ∧
    sliceItems [⟨"A", 30⟩, ⟨"B", 40⟩] (-1) 2 = .panicked ∧
    paginate [⟨"A", 30⟩, ⟨"B", 40⟩] ⟨"", "", "", "", "-1", ""⟩ = .panicked ∧
    paginate [⟨"A", 30⟩, ⟨"B", 40⟩] ⟨"", "", "", "", "-1", "1"⟩ = .panicked ∧
    getAds ⟨false, false, false, none, false,
        [⟨"A", 10, 30, [⟨0, 100, none, none, none⟩], 0, 0⟩, ⟨"B", 10, 40, [⟨0, 100, none, none, none⟩], 0, 0⟩]⟩
      20 ⟨"", "", "", "", "-1", ""⟩ = .panicked := by
  refine ⟨by decide, by decide, by decide, by decide, by decide, by decide, by decide,
    by decide⟩

end AdApi
